import Mathlib

/-!
Verification of the cortex chunk-store / block-store subsystem.

The definitions below are a shallow embedding of the Go sources:
  * `pkg/querier/block_store.go` (the multi-tenant `UserStore` gRPC server and
    the chunk `store` with its write / read / delete pipelines);
  * the scanner `main` (page handler and per-tenant summaries).

Machine times (`model.Time`) are embedded as `Int` milliseconds.  Pluggable
collaborators (the versioned `Schema`, the range-value decoder
`parseChunkTimeRangeValue`, `ParseExternalKey`, `ExternalKey`) together with
injectable client failures are collected in a `StoreEnv` record; the store
state (index rows, chunk payloads, chunk cache) is threaded explicitly.
-/

/-- Label sets, as in `labels.Labels`: an association list of name/value. -/
abbrev Labels := List (String × String)

/-- Modelled from the spec: `labels.Labels.Get` returns the value of the first
label with the given name, or the empty string when absent. -/
def labelsGet (ls : Labels) (name : String) : String :=
  match ls.find? (fun p => p.1 == name) with
  | some p => p.2
  | none => ""

/-- The reserved metric-name label. -/
def metricNameLabel : String := "__name__"

/-- Matcher types, as in `labels.MatchType`. -/
inductive MatchType where
  | MatchEqual
  | MatchNotEqual
  | MatchRegexp
  | MatchNotRegexp
  deriving DecidableEq

/-- A label matcher.  The compiled regular expression of a regexp matcher is
embedded as an abstract Boolean predicate `re`. -/
structure Matcher where
  mtype : MatchType
  name : String
  value : String
  re : String → Bool

/-- Modelled from the spec: `labels.Matcher.Matches`. -/
def Matcher.Matches (m : Matcher) (s : String) : Bool :=
  match m.mtype with
  | .MatchEqual => s == m.value
  | .MatchNotEqual => s != m.value
  | .MatchRegexp => m.re s
  | .MatchNotRegexp => !(m.re s)

/-- A chunk, as in `pkg/chunk.Chunk`: tenant, label set, interval and the
sample payload (pairs of time and value), plus fingerprint and checksum. -/
structure Chunk where
  userID : String
  From : Int
  Through : Int
  metric : Labels
  fingerprint : Nat
  checksum : Nat
  data : List (Int × Int)
  deriving DecidableEq

/-- One row of the secondary index. -/
structure IndexEntry where
  tableName : String
  hashValue : String
  rangeValue : String
  value : String
  deriving DecidableEq

/-- An index read query, as issued by the schema: a (table, hash) pair. -/
structure IndexQuery where
  tableName : String
  hashValue : String
  deriving DecidableEq

/-- One operation of a `WriteBatch`. -/
inductive WriteOp where
  | add (tableName hashValue rangeValue value : String)
  | del (tableName hashValue rangeValue : String)
  deriving DecidableEq

/-- A `WriteBatch` is the ordered list of accumulated operations. -/
abbrev WriteBatch := List WriteOp

/-- Errors surfaced by the store. -/
inductive Err where
  | badRequest (msg : String)
  | metricNameLabelMissing
  | partialDeleteNoOverlap
  | storageObjectNotFound
  | sliceNoDataInRange
  | clientErr (msg : String)
  | schemaErr (msg : String)
  deriving DecidableEq

-- Decidable equality of results, used by concrete witnesses.
deriving instance DecidableEq for Except

/-- Apply one write operation to the index rows: `add` upserts by the
(table, hash, range) triple, `del` removes the triple. -/
def applyOp (rows : List IndexEntry) : WriteOp → List IndexEntry
  | .add t h r v =>
      rows.filter (fun e => !(e.tableName == t && e.hashValue == h && e.rangeValue == r))
        ++ [⟨t, h, r, v⟩]
  | .del t h r =>
      rows.filter (fun e => !(e.tableName == t && e.hashValue == h && e.rangeValue == r))

/-- `IndexClient.BatchWrite` applied to the in-memory index rows. -/
def applyBatch (rows : List IndexEntry) (b : WriteBatch) : List IndexEntry :=
  b.foldl applyOp rows

/-- Hexadecimal rendering of a string, modelling the `%x` verb used in the
dedup key of `calculateIndexEntries`. -/
def hexStr (s : String) : String :=
  String.mk (s.data.foldr (fun c acc => Nat.toDigits 16 c.toNat ++ acc) [])

/-- The dedup key `fmt.Sprintf("%s:%s:%x", TableName, HashValue, RangeValue)`
from `calculateIndexEntries`. -/
def entryKey (e : IndexEntry) : String :=
  e.tableName ++ ":" ++ e.hashValue ++ ":" ++ hexStr e.rangeValue

/-- The (TableName, HashValue, RangeValue) triple of a write operation. -/
def opTriple : WriteOp → String × String × String
  | .add t h r _ => (t, h, r)
  | .del t h r => (t, h, r)

/-- The dedup key of a write operation (same formula as `entryKey`). -/
def opKey (o : WriteOp) : String :=
  (opTriple o).1 ++ ":" ++ (opTriple o).2.1 ++ ":" ++ hexStr (opTriple o).2.2

/-- The dedup loop of `calculateIndexEntries`: walk the schema entries,
skipping any whose `tableName:hashValue:rangeValue` key was already seen,
and `Add` the survivors to the result batch. -/
def dedupEntries (seen : List String) : List IndexEntry → WriteBatch
  | [] => []
  | e :: rest =>
      if entryKey e ∈ seen then dedupEntries seen rest
      else .add e.tableName e.hashValue e.rangeValue e.value :: dedupEntries (entryKey e :: seen) rest

/-- The store state: index rows, chunk payloads keyed by external key, and the
chunk cache. -/
structure StoreState where
  index : List IndexEntry
  chunkDB : List (String × Chunk)
  cache : List (String × Chunk)
  deriving DecidableEq

/-- Pluggable collaborators of the chunk store plus injectable client
failures.  The schema functions, the range-value decoder
(`parseChunkTimeRangeValue`), `ParseExternalKey` and `ExternalKey` are code of
the repository outside the given sources; they are modelled from the spec as
abstract fields, instantiated concretely in witnesses. -/
structure StoreEnv where
  schemaWriteEntries : Int → Int → String → String → Labels → String → Except Err (List IndexEntry)
  schemaReadMetric : Int → Int → String → String → Except Err (List IndexQuery)
  schemaReadMetricLabel : Int → Int → String → String → String → Except Err (List IndexQuery)
  schemaReadMetricLabelValue : Int → Int → String → String → String → String → Except Err (List IndexQuery)
  parseRangeValue : String → String → Except Err (String × String)
  parseExternalKey : String → String → Except Err Chunk
  extKey : Chunk → String
  putChunksErr : Option Err
  batchWriteErr : Option Err
  cacheWriteErr : Option Err
  maxQueryLength : String → Int
  maxChunksPerQuery : String → Nat
  maxLookBackPeriod : Int
  now : Int

/-- Upsert a chunk payload under its key. -/
def upsertChunk (m : List (String × Chunk)) (k : String) (c : Chunk) : List (String × Chunk) :=
  (k, c) :: m.filter (fun p => p.1 != k)

/-- `calculateIndexEntries`: refuse a chunk without a metric name, ask the
schema for the write entries, and dedup them by `(table:hash:range)`. -/
def calculateIndexEntries (env : StoreEnv) (userID : String) (f t : Int) (chunk : Chunk) :
    Except Err WriteBatch :=
  if labelsGet chunk.metric metricNameLabel = "" then
    .error .metricNameLabelMissing
  else
    match env.schemaWriteEntries f t userID (labelsGet chunk.metric metricNameLabel)
        chunk.metric (env.extKey chunk) with
    | .error e => .error e
    | .ok entries => .ok (dedupEntries [] entries)

/-- `PutOne`: write the payload through the chunk client, populate the cache
best-effort (failures only logged), compute the deduped index entries, and
batch-write them to the index client.  The state reached so far is kept on
every error path. -/
def PutOne (env : StoreEnv) (st : StoreState) (f t : Int) (chunk : Chunk) :
    StoreState × Option Err :=
  match env.putChunksErr with
  | some e => (st, some e)
  | none =>
    let st1 : StoreState := { st with chunkDB := upsertChunk st.chunkDB (env.extKey chunk) chunk }
    let st2 : StoreState :=
      match env.cacheWriteErr with
      | some _ => st1
      | none => { st1 with cache := upsertChunk st1.cache (env.extKey chunk) chunk }
    match calculateIndexEntries env chunk.userID f t chunk with
    | .error e => (st2, some e)
    | .ok batch =>
      match env.batchWriteErr with
      | some e => (st2, some e)
      | none => ({ st2 with index := applyBatch st2.index batch }, none)

/-- `Put` iterates `PutOne`, stopping at the first error. -/
def Put (env : StoreEnv) (st : StoreState) : List Chunk → StoreState × Option Err
  | [] => (st, none)
  | c :: cs =>
    match PutOne env st c.From c.Through c with
    | (st', none) => Put env st' cs
    | (st', some e) => (st', some e)

/-- Five minutes in model-time milliseconds (`now.Add(5 * time.Minute)`). -/
def fiveMinutesMs : Int := 300000

/-- The query-too-long error of `validation.ErrQueryTooLong`. -/
def errQueryTooLong : Err := .badRequest "the query time range exceeds the limit"

/-- `validateQueryTimeRange`: reject inverted ranges, enforce the per-tenant
maximum query length, shortcut whole-future ranges (`.ok none`), clamp `from`
forward under `MaxLookBackPeriod` and clamp far-future `through` to now. -/
def validateQueryTimeRange (env : StoreEnv) (userID : String) (f t : Int) :
    Except Err (Option (Int × Int)) :=
  if t < f then .error (.badRequest "invalid query, through < from")
  else if env.maxQueryLength userID > 0 ∧ t - f > env.maxQueryLength userID then
    .error errQueryTooLong
  else if f > env.now then .ok none
  else
    let f1 := if env.maxLookBackPeriod ≠ 0 ∧ env.now - env.maxLookBackPeriod > f then
      env.now - env.maxLookBackPeriod else f
    let t1 := if t > env.now + fiveMinutesMs then env.now else t
    .ok (some (f1, t1))

/-- Modelled from the spec: `extract.MetricNameMatcherFromMatchers` finds the
first matcher on the metric-name label and removes it from the list. -/
def metricNameMatcherFromMatchers : List Matcher → Option (Matcher × List Matcher)
  | [] => none
  | m :: rest =>
    if m.name == metricNameLabel then some (m, rest)
    else
      match metricNameMatcherFromMatchers rest with
      | some (mm, others) => some (mm, m :: others)
      | none => none

/-- `validateQuery`: validate the time range, then require an equality matcher
on the metric name, extracting it from the matcher list. -/
def validateQuery (env : StoreEnv) (userID : String) (f t : Int) (matchers : List Matcher) :
    Except Err (Option (String × List Matcher × Int × Int)) :=
  match validateQueryTimeRange env userID f t with
  | .error e => .error e
  | .ok none => .ok none
  | .ok (some (f1, t1)) =>
    match metricNameMatcherFromMatchers matchers with
    | none => .error (.badRequest "query must contain metric name")
    | some (mm, rest) =>
      if mm.mtype ≠ .MatchEqual then .error (.badRequest "query must contain metric name")
      else .ok (some (mm.value, rest, f1, t1))

/-- Modelled from the spec: `util.SplitFiltersAndMatchers` — matchers that
match the empty string become post-fetch filters, the rest stay indexable. -/
def splitFiltersAndMatchers (ms : List Matcher) : List Matcher × List Matcher :=
  (ms.filter (fun m => m.Matches ""), ms.filter (fun m => !(m.Matches "")))

/-- Sequential effectful map over `Except`, as a Go loop that returns on the
first error. -/
def exceptMap {α β : Type} (g : α → Except Err β) : List α → Except Err (List β)
  | [] => .ok []
  | x :: xs =>
    match g x with
    | .error e => .error e
    | .ok y =>
      match exceptMap g xs with
      | .error e => .error e
      | .ok ys => .ok (y :: ys)

/-- Insertion step of `sort.Strings`, modelled as insertion sort. -/
def insertSorted (s : String) : List String → List String
  | [] => [s]
  | x :: xs => if s ≤ x then s :: x :: xs else x :: insertSorted s xs

/-- Modelled from the spec: `sort.Strings` on chunk IDs. -/
def sortStrings : List String → List String
  | [] => []
  | x :: xs => insertSorted x (sortStrings xs)

/-- Modelled from the spec: `uniqueStrings` deduplicates a sorted list. -/
def uniqueStrings : List String → List String
  | [] => []
  | [a] => [a]
  | a :: b :: rest =>
    if a == b then uniqueStrings (b :: rest) else a :: uniqueStrings (b :: rest)

/-- Modelled from the spec: `intersectStrings` computes the set intersection
of two chunk-ID lists. -/
def intersectStrings (l r : List String) : List String :=
  l.filter (fun x => r.contains x)

/-- The coordinator of the matcher fan-out: the first list seeds the result,
every further list is intersected in. -/
def intersectLists : List (List String) → List String
  | [] => []
  | l :: ls => ls.foldl intersectStrings l

/-- `lookupEntriesByQueries`: for each query collect the index rows under its
(table, hash), rebuilding the entries from the query key and row range/value
exactly as the Go callback does. -/
def lookupEntriesByQueries (st : StoreState) (queries : List IndexQuery) : List IndexEntry :=
  queries.foldr (fun q acc =>
    (st.index.filter (fun e => e.tableName == q.tableName && e.hashValue == q.hashValue)).map
      (fun e => { tableName := q.tableName, hashValue := q.hashValue,
                  rangeValue := e.rangeValue, value := e.value }) ++ acc) []

/-- Row loop of `parseIndexEntries`: decode each range value; with a matcher
present, keep only chunk keys whose decoded label value matches. -/
def parseIndexEntriesAux (env : StoreEnv) (m? : Option Matcher) :
    List IndexEntry → Except Err (List String)
  | [] => .ok []
  | e :: rest =>
    match env.parseRangeValue e.rangeValue e.value with
    | .error err => .error err
    | .ok (chunkKey, labelValue) =>
      match parseIndexEntriesAux env m? rest with
      | .error err => .error err
      | .ok tail =>
        match m? with
        | some m => if m.Matches labelValue then .ok (chunkKey :: tail) else .ok tail
        | none => .ok (chunkKey :: tail)

/-- `parseIndexEntries`: decode and filter, then sort and dedup the chunk IDs
(they will be merged with other sets). -/
def parseIndexEntries (env : StoreEnv) (entries : List IndexEntry) (m? : Option Matcher) :
    Except Err (List String) :=
  match parseIndexEntriesAux env m? entries with
  | .error e => .error e
  | .ok l => .ok (uniqueStrings (sortStrings l))

/-- `convertChunkIDsToChunks` via `ParseExternalKey`. -/
def convertChunkIDsToChunks (env : StoreEnv) (userID : String) (ids : List String) :
    Except Err (List Chunk) :=
  exceptMap (env.parseExternalKey userID) ids

/-- Modelled from the spec: `filterChunksByTime` drops chunks whose interval
does not overlap the queried range. -/
def filterChunksByTime (f t : Int) (cs : List Chunk) : List Chunk :=
  cs.filter (fun c => !(decide (c.Through < f) || decide (t < c.From)))

/-- Modelled from the spec: `filterChunksByMatchers` keeps the chunks every
filter matcher accepts on the chunk's own labels. -/
def filterChunksByMatchers (cs : List Chunk) (filters : List Matcher) : List Chunk :=
  cs.filter (fun c => filters.all (fun m => m.Matches (labelsGet c.metric m.name)))

/-- Modelled from the spec: the `Fetcher` read path — probe the cache, then
the chunk client; a key found in neither is a storage-object-not-found. -/
def fetchOne (st : StoreState) (k : String) : Except Err Chunk :=
  match st.cache.lookup k with
  | some c => .ok c
  | none =>
    match st.chunkDB.lookup k with
    | some c => .ok c
    | none => .error .storageObjectNotFound

/-- Modelled from the spec: `FetchChunks` materializes payloads for the given
keys, in key order. -/
def fetchChunks (st : StoreState) (keys : List String) : Except Err (List Chunk) :=
  exceptMap (fetchOne st) keys

/-- One branch of the matcher fan-out: plan the index queries for the matcher
(label-value queries for equality, label queries otherwise), look the pages
up and parse them into a sorted, deduped, matcher-filtered chunk-ID list. -/
def perMatcherChunkIDs (env : StoreEnv) (st : StoreState) (userID : String) (f t : Int)
    (metricName : String) (m : Matcher) : Except Err (List String) :=
  match (if m.mtype ≠ MatchType.MatchEqual
          then env.schemaReadMetricLabel f t userID metricName m.name
          else env.schemaReadMetricLabelValue f t userID metricName m.name m.value) with
  | .error e => .error e
  | .ok queries => parseIndexEntries env (lookupEntriesByQueries st queries) (some m)

/-- `lookupChunksByMetricName`: with no matchers use the all-of-metric
queries directly; otherwise fan out per matcher and intersect the chunk-ID
sets. -/
def lookupChunksByMetricName (env : StoreEnv) (st : StoreState) (userID : String) (f t : Int)
    (matchers : List Matcher) (metricName : String) : Except Err (List Chunk) :=
  match matchers with
  | [] =>
    match env.schemaReadMetric f t userID metricName with
    | .error e => .error e
    | .ok queries =>
      match parseIndexEntries env (lookupEntriesByQueries st queries) none with
      | .error e => .error e
      | .ok ids => convertChunkIDsToChunks env userID ids
  | _ :: _ =>
    match exceptMap (perMatcherChunkIDs env st userID f t metricName) matchers with
    | .error e => .error e
    | .ok idss => convertChunkIDsToChunks env userID (intersectLists idss)

/-- `getMetricNameChunks`: split filters from indexable matchers, look up and
intersect candidates, filter by time, enforce the chunks-per-query limit,
fetch payloads, and post-filter by the filter matchers. -/
def getMetricNameChunks (env : StoreEnv) (st : StoreState) (userID : String) (f t : Int)
    (allMatchers : List Matcher) (metricName : String) : Except Err (List Chunk) :=
  let fm := splitFiltersAndMatchers allMatchers
  match lookupChunksByMetricName env st userID f t fm.2 metricName with
  | .error e => .error e
  | .ok chunks =>
    let filtered := filterChunksByTime f t chunks
    if env.maxChunksPerQuery userID > 0 ∧ filtered.length > env.maxChunksPerQuery userID then
      .error (.badRequest "query fetched too many chunks")
    else
      match fetchChunks st (filtered.map env.extKey) with
      | .error e => .error e
      | .ok allChunks => .ok (filterChunksByMatchers allChunks fm.1)

/-- `Get`: validate (shortcut yields the empty set) then run the
metric-name pipeline on the extracted metric and remaining matchers. -/
def Get (env : StoreEnv) (st : StoreState) (userID : String) (f t : Int)
    (allMatchers : List Matcher) : Except Err (List Chunk) :=
  match validateQuery env userID f t allMatchers with
  | .error e => .error e
  | .ok none => .ok []
  | .ok (some (metricName, matchers, f1, t1)) =>
    getMetricNameChunks env st userID f1 t1 matchers metricName

/-- Modelled from the spec: insertion-ordered dedup of `UniqueStrings`. -/
def addUnique (l : List String) (s : String) : List String :=
  if s ∈ l then l else l ++ [s]

/-- `LabelValuesForMetricName`: validate, plan the metric-label queries,
decode the label values out of the range values and dedup them. -/
def LabelValuesForMetricName (env : StoreEnv) (st : StoreState) (userID : String) (f t : Int)
    (metricName labelName : String) : Except Err (List String) :=
  match validateQueryTimeRange env userID f t with
  | .error e => .error e
  | .ok none => .ok []
  | .ok (some (f1, t1)) =>
    match env.schemaReadMetricLabel f1 t1 userID metricName labelName with
    | .error e => .error e
    | .ok queries =>
      match exceptMap (fun e => env.parseRangeValue e.rangeValue e.value)
          (lookupEntriesByQueries st queries) with
      | .error e => .error e
      | .ok pairs => .ok (pairs.foldl (fun acc p => addUnique acc p.2) [])

/-- Modelled from the spec: `filterChunksByUniqueFingerprint` keeps one chunk
per fingerprint and returns the kept chunks with their external keys. -/
def filterChunksByUniqueFingerprint (env : StoreEnv) : List Chunk → List Nat →
    List Chunk × List String
  | [], _ => ([], [])
  | c :: cs, seen =>
    if c.fingerprint ∈ seen then filterChunksByUniqueFingerprint env cs seen
    else
      let rest := filterChunksByUniqueFingerprint env cs (c.fingerprint :: seen)
      (c :: rest.1, env.extKey c :: rest.2)

/-- Modelled from the spec: `labelNamesFromChunks` unions the label names of
the fetched chunks. -/
def labelNamesFromChunks (cs : List Chunk) : List String :=
  cs.foldl (fun acc c => c.metric.foldl (fun a p => addUnique a p.1) acc) []

/-- `LabelNamesForMetricName`: validate, look up all chunks of the metric,
time-filter, keep one chunk per fingerprint, fetch, union label names. -/
def LabelNamesForMetricName (env : StoreEnv) (st : StoreState) (userID : String) (f t : Int)
    (metricName : String) : Except Err (List String) :=
  match validateQueryTimeRange env userID f t with
  | .error e => .error e
  | .ok none => .ok []
  | .ok (some (f1, t1)) =>
    match lookupChunksByMetricName env st userID f1 t1 [] metricName with
    | .error e => .error e
    | .ok chunks =>
      let fk := filterChunksByUniqueFingerprint env (filterChunksByTime f1 t1 chunks) []
      match fetchChunks st fk.2 with
      | .error e => .error e
      | .ok allChunks => .ok (labelNamesFromChunks allChunks)

/-- Modelled from the spec: `Chunk.Slice` restricts a chunk to the samples in
the requested closed interval, which also becomes its new interval; an empty
restriction is the slice-no-data sentinel. -/
def Chunk.slice (c : Chunk) (f t : Int) : Except Err Chunk :=
  let d := c.data.filter (fun p => decide (f ≤ p.1) && decide (p.1 ≤ t))
  if d.isEmpty then .error .sliceNoDataInRange
  else .ok { c with From := f, Through := t, data := d }

/-- Slice attempt of `reboundChunk`: the slice-no-data sentinel yields no
replacement chunk instead of an error. -/
def sliceFor (c : Chunk) (f t : Int) : Except Err (List Chunk) :=
  match Chunk.slice c f t with
  | .ok nc => .ok [nc]
  | .error .sliceNoDataInRange => .ok []
  | .error e => .error e

/-- Modelled from the spec: closed-interval overlap of `intervalsOverlap`. -/
def intervalsOverlap (i1 i2 : Int × Int) : Bool :=
  !(decide (i1.1 > i2.2) || decide (i2.1 > i1.2))

/-- Put each replacement chunk via the injected write path, stopping on the
first error (encoding is the identity on this opaque payload model). -/
def putNewChunks (putChunk : StoreState → Chunk → StoreState × Option Err) (st : StoreState) :
    List Chunk → StoreState × Option Err
  | [] => (st, none)
  | c :: cs =>
    match putChunk st c with
    | (st', none) => putNewChunks putChunk st' cs
    | (st', some e) => (st', some e)

/-- `reboundChunk`: parse the external key, require overlap with the
partially-deleted interval, fetch the payload (absent payload is a silent
success), slice the non-deleted left and right remainders, and put them. -/
def reboundChunk (env : StoreEnv) (st : StoreState) (userID chunkID : String) (a b : Int)
    (putChunk : StoreState → Chunk → StoreState × Option Err) : StoreState × Option Err :=
  match env.parseExternalKey userID chunkID with
  | .error e => (st, some e)
  | .ok c0 =>
    if !intervalsOverlap (c0.From, c0.Through) (a, b) then (st, some .partialDeleteNoOverlap)
    else
      match fetchChunks st [chunkID] with
      | .error .storageObjectNotFound => (st, none)
      | .error e => (st, some e)
      | .ok [chunk] =>
        match (if a > chunk.From then sliceFor chunk chunk.From (a - 1) else .ok []) with
        | .error e => (st, some e)
        | .ok ls =>
          match (if b < chunk.Through then sliceFor chunk (b + 1) chunk.Through else .ok []) with
          | .error e => (st, some e)
          | .ok rs => putNewChunks putChunk st (ls ++ rs)
      | .ok _ => (st, some (.clientErr "expected to get 1 chunk from storage"))

/-- `deleteChunk`: optionally rebound the partially deleted chunk, then
batch-delete its index entries and delete the payload (not-found payloads are
swallowed). -/
def deleteChunk (env : StoreEnv) (st : StoreState) (userID chunkID : String) (metric : Labels)
    (chunkWriteEntries : List IndexEntry) (pdInterval : Option (Int × Int))
    (putChunk : StoreState → Chunk → StoreState × Option Err) : StoreState × Option Err :=
  if labelsGet metric metricNameLabel = "" then (st, some .metricNameLabelMissing)
  else
    match (match pdInterval with
           | some ab => reboundChunk env st userID chunkID ab.1 ab.2 putChunk
           | none => (st, none)) with
    | (st1, some e) => (st1, some e)
    | (st1, none) =>
      match env.batchWriteErr with
      | some e => (st1, some e)
      | none =>
        let batch : WriteBatch :=
          chunkWriteEntries.map (fun e => .del e.tableName e.hashValue e.rangeValue)
        let st2 : StoreState := { st1 with index := applyBatch st1.index batch }
        ({ st2 with chunkDB := st2.chunkDB.filter (fun p => p.1 != chunkID) }, none)

/-- `DeleteChunk`: compute the chunk's write entries from the schema and
delegate to `deleteChunk` with `PutOne` as the write path for replacements. -/
def DeleteChunk (env : StoreEnv) (st : StoreState) (f t : Int) (userID chunkID : String)
    (metric : Labels) (pdInterval : Option (Int × Int)) : StoreState × Option Err :=
  if labelsGet metric metricNameLabel = "" then (st, some .metricNameLabelMissing)
  else
    match env.schemaWriteEntries f t userID (labelsGet metric metricNameLabel) metric chunkID with
    | .error e => (st, some e)
    | .ok entries =>
      deleteChunk env st userID chunkID metric entries pdInterval
        (fun s c => PutOne env s c.From c.Through c)

/-- Abstract per-tenant BucketStore: the responses it would serve for each of
the four RPCs (request and response payloads are embedded as numbers, their
content being outside this subsystem). -/
structure BucketStore where
  infoResp : Nat → Nat
  seriesResp : Nat → List Nat
  labelNamesResp : Nat → List String
  labelValuesResp : Nat → List String

/-- The multi-tenant `UserStore`: one BucketStore per tenant. -/
structure UserStore where
  stores : List (String × BucketStore)

/-- The two request-metadata errors of the RPC handlers. -/
inductive RPCErr where
  | noMetadata
  | noUserID
  deriving DecidableEq

/-- Incoming request metadata: keyed lists of values. -/
abbrev Metadata := List (String × List String)

/-- `metadata.MD.Get`. -/
def mdGet (md : Metadata) (k : String) : List String :=
  match md.find? (fun p => p.1 == k) with
  | some p => p.2
  | none => []

/-- `UserStore.getStore`: read-locked map lookup, nil when the tenant has no
store. -/
def getStore (u : UserStore) (userID : String) : Option BucketStore :=
  u.stores.lookup userID

/-- `UserStore.Info`. -/
def Info (u : UserStore) (md : Option Metadata) (req : Nat) : Except RPCErr (Option Nat) :=
  match md with
  | none => .error .noMetadata
  | some m =>
    match mdGet m "user" with
    | [] => .error .noUserID
    | uid :: _ =>
      match getStore u uid with
      | none => .ok none
      | some s => .ok (some (s.infoResp req))

/-- `UserStore.Series` (the streamed responses collected into a list; a
missing tenant streams nothing). -/
def Series (u : UserStore) (md : Option Metadata) (req : Nat) : Except RPCErr (Option (List Nat)) :=
  match md with
  | none => .error .noMetadata
  | some m =>
    match mdGet m "user" with
    | [] => .error .noUserID
    | uid :: _ =>
      match getStore u uid with
      | none => .ok none
      | some s => .ok (some (s.seriesResp req))

/-- `UserStore.LabelNames`. -/
def LabelNames (u : UserStore) (md : Option Metadata) (req : Nat) :
    Except RPCErr (Option (List String)) :=
  match md with
  | none => .error .noMetadata
  | some m =>
    match mdGet m "user" with
    | [] => .error .noUserID
    | uid :: _ =>
      match getStore u uid with
      | none => .ok none
      | some s => .ok (some (s.labelNamesResp req))

/-- `UserStore.LabelValues`. -/
def LabelValues (u : UserStore) (md : Option Metadata) (req : Nat) :
    Except RPCErr (Option (List String)) :=
  match md with
  | none => .error .noMetadata
  | some m =>
    match mdGet m "user" with
    | [] => .error .noUserID
    | uid :: _ =>
      match getStore u uid with
      | none => .ok none
      | some s => .ok (some (s.labelValuesResp req))

/-- Collaborators of the scanner: `OrgFromHash`, the chunk decoder and the
reindex store's IndexChunk outcome, all code outside the given sources and
modelled from the spec as abstract functions. -/
structure ScanEnv where
  orgFromHash : String → Int
  decodeChunk : String → Except Err Chunk
  indexChunkErr : Chunk → Option Err

/-- One row of a scanned page. -/
structure ScanRow where
  hashValue : String
  rangeValue : String
  value : String

/-- A scanner segment handler with its summary counts and the chunks it has
reindexed. -/
structure ScanHandler where
  tableName : String
  orgs : List Int
  reindexTable : String
  counts : List (Int × Nat)
  indexed : List Chunk

/-- `summary` increment: add `v` to the count of tenant `k`. -/
def bumpCount (m : List (Int × Nat)) (k : Int) (v : Nat) : List (Int × Nat) :=
  match m with
  | [] => [(k, v)]
  | kv :: rest => if kv.1 == k then (kv.1, kv.2 + v) :: rest else kv :: bumpCount rest k v

/-- The tail of the row step after the count bump: the (stubbed) delete
branch for listed tenants, else decode-and-reindex when enabled, logging and
continuing on errors. -/
def handleRowTail (env : ScanEnv) (h1 : ScanHandler) (org : Int) (r : ScanRow) : ScanHandler :=
  if org ∈ h1.orgs then h1
  else if h1.reindexTable ≠ "" then
    match env.decodeChunk r.value with
    | .error _ => h1
    | .ok ch =>
      match env.indexChunkErr ch with
      | some _ => h1
      | none => { h1 with indexed := h1.indexed ++ [ch] }
  else h1

/-- Row step of `handlePage`: extract the tenant id from the hash value, skip
non-positive ids, bump the per-tenant count, then run the delete/reindex
tail. -/
def handleRow (env : ScanEnv) (h : ScanHandler) (r : ScanRow) : ScanHandler :=
  if env.orgFromHash r.hashValue ≤ 0 then h
  else
    handleRowTail env { h with counts := bumpCount h.counts (env.orgFromHash r.hashValue) 1 }
      (env.orgFromHash r.hashValue) r

/-- `handlePage`: bump the pages-scanned counter once, then run every row. -/
def handlePage (env : ScanEnv) (h : ScanHandler) (pagesScanned : Nat) (page : List ScanRow) :
    ScanHandler × Nat :=
  (page.foldl (handleRow env) h, pagesScanned + 1)

/-- A segment handler consuming its pages in order. -/
def processPages (env : ScanEnv) (h : ScanHandler) (pagesScanned : Nat) :
    List (List ScanRow) → ScanHandler × Nat
  | [] => (h, pagesScanned)
  | p :: ps =>
    let r := handlePage env h pagesScanned p
    processPages env r.1 r.2 ps

/-- `summary.accumulate`: add every count of `b` into `a`. -/
def accumulate (a b : List (Int × Nat)) : List (Int × Nat) :=
  b.foldl (fun acc kv => bumpCount acc kv.1 kv.2) a

/-- The final merge of `main`: fold every segment summary into fresh totals. -/
def mergeSummaries (summaries : List (List (Int × Nat))) : List (Int × Nat) :=
  summaries.foldl accumulate []

/-- A trivial concrete environment for witnesses: empty schema, disabled
limits, no injected failures. -/
def trivEnv : StoreEnv where
  schemaWriteEntries := fun _ _ _ _ _ _ => .ok []
  schemaReadMetric := fun _ _ _ _ => .ok []
  schemaReadMetricLabel := fun _ _ _ _ _ => .ok []
  schemaReadMetricLabelValue := fun _ _ _ _ _ _ => .ok []
  parseRangeValue := fun _ _ => .error (.schemaErr "no rows expected")
  parseExternalKey := fun _ _ => .error (.clientErr "no ids expected")
  extKey := fun _ => ""
  putChunksErr := none
  batchWriteErr := none
  cacheWriteErr := none
  maxQueryLength := fun _ => 0
  maxChunksPerQuery := fun _ => 0
  maxLookBackPeriod := 0
  now := 1000000

/-- The empty store state. -/
def trivState : StoreState := ⟨[], [], []⟩

/-- A concrete equality matcher on the metric name. -/
def mName : Matcher := ⟨.MatchEqual, metricNameLabel, "m", fun _ => false⟩

/-- A concrete non-equality matcher on the metric name. -/
def mNameRegex : Matcher := ⟨.MatchRegexp, metricNameLabel, "m.*", fun _ => true⟩

/-- A concrete equality matcher on an ordinary label. -/
def mJob : Matcher := ⟨.MatchEqual, "job", "api", fun _ => false⟩

/-- An environment with a positive maximum query length. -/
def envLim : StoreEnv := { trivEnv with maxQueryLength := fun _ => 10 }

/-- A concrete chunk for write-path witnesses. -/
def chunkW : Chunk :=
  ⟨"u7", 1000, 2000, [(metricNameLabel, "http_requests"), ("job", "api")], 3, 9, [(1500, 42)]⟩

/-- A concrete chunk without a metric name. -/
def chunkNoName : Chunk := ⟨"u7", 1000, 2000, [("job", "api")], 3, 9, [(1500, 42)]⟩

/-- A concrete BucketStore for routing witnesses. -/
def bsW : BucketStore := ⟨fun _ => 7, fun _ => [1, 2], fun _ => ["a"], fun _ => ["b"]⟩

/-- A UserStore holding only tenant `a`. -/
def uW : UserStore := ⟨[("a", bsW)]⟩

/-- Metadata naming tenant `a`. -/
def mdW : Metadata := [("user", ["a"])]

/-- Metadata naming the unknown tenant `z`. -/
def mdX : Metadata := [("user", ["z"])]

/-- An environment whose chunk client fails writes. -/
def envPutFail : StoreEnv := { trivEnv with putChunksErr := some (.clientErr "disk full") }

/-- An environment whose index client fails batch writes. -/
def envBatchFail : StoreEnv :=
  { trivEnv with
      batchWriteErr := some (.clientErr "index down")
      schemaWriteEntries := fun _ _ _ _ _ _ => .ok [⟨"tb", "hs", "rg", "vv"⟩] }

/-- Go map lookup on the summary counts. -/
def lookupCount (m : List (Int × Nat)) (k : Int) : Option Nat :=
  match m with
  | [] => none
  | kv :: rest => if kv.1 == k then some kv.2 else lookupCount rest k

/-- Concatenated rows of a list of pages. -/
def joinRows {a : Type} : List (List a) → List a
  | [] => []
  | p :: ps => p ++ joinRows ps

/-- Number of rows whose hash value decodes to the given tenant. -/
def countOrg (env : ScanEnv) (rows : List ScanRow) (org : Int) : Nat :=
  rows.countP (fun r => env.orgFromHash r.hashValue == org)

/-- Total count recorded for a key across an association list. -/
def assocSum (b : List (Int × Nat)) (k : Int) : Nat :=
  (b.map (fun kv => if kv.1 == k then kv.2 else 0)).sum

/-- A fresh segment handler, as `newHandler` produces it. -/
def newScanHandler (tbl : String) (os : List Int) (rT : String) : ScanHandler :=
  ⟨tbl, os, rT, [], []⟩

/-- Write entries with a duplicated (table, hash, range) triple. -/
def dupEntries : List IndexEntry :=
  [⟨"tb", "hs", "rg", "v1"⟩, ⟨"tb", "hs", "rg", "v2"⟩, ⟨"tb", "hs", "r2", "v3"⟩]

/-- Environment for the dedup witness: the schema emits a duplicated
(table, hash, range) triple. -/
def envDup : StoreEnv :=
  { trivEnv with schemaWriteEntries := fun _ _ _ _ _ _ => Except.ok dupEntries }

/-- Scanner environment for the witness: hash strings literally carry the
tenant id. -/
def scanEnvW : ScanEnv :=
  ⟨fun s => if s = "3" then 3 else if s = "8" then 8 else -1,
   fun _ => .error (.clientErr "no decode"), fun _ => none⟩

/-- One row whose hash is the given string. -/
def rowOf (s : String) : ScanRow := ⟨s, "", ""⟩

/-- Scenario S6 pages: tenant 3 five rows, tenant 8 two rows, tenant −1 one
row, split over two pages. -/
def pagesW : List (List ScanRow) :=
  [[rowOf "3", rowOf "3", rowOf "3", rowOf "8", rowOf "-1"],
   [rowOf "3", rowOf "3", rowOf "8"]]

/-- The replacement chunks a slice attempt yields: one chunk when data
remains in the interval, none otherwise. -/
def sliceList (c : Chunk) (f t : Int) : List Chunk :=
  match Chunk.slice c f t with
  | .ok nc => [nc]
  | .error _ => []

/-- A stored chunk for the partial-delete witness. -/
def cDel : Chunk :=
  ⟨"u7", 10, 20, [(metricNameLabel, "m")], 1, 0, [(10, 1), (12, 2), (16, 3), (20, 4)]⟩

/-- The shell chunk `ParseExternalKey` reconstructs for the witness key. -/
def cDel0 : Chunk := ⟨"u7", 10, 20, [], 1, 0, []⟩

/-- Environment for the partial-delete witness: interval-based external keys
and a parser answering for the stored key. -/
def envDel : StoreEnv :=
  { trivEnv with
      parseExternalKey := fun u key =>
        if u = "u7" ∧ key = "u7:10:20" then .ok cDel0 else .error (.clientErr "bad key")
      extKey := fun ch => ch.userID ++ ":" ++ toString ch.From ++ ":" ++ toString ch.Through }

/-- Store state holding only the witness chunk. -/
def stDel : StoreState := ⟨[], [("u7:10:20", cDel)], []⟩

/-- The candidate chunk-ID set of the matcher fan-out: the per-matcher
lists intersected. -/
def getCandidateIDs (env : StoreEnv) (st : StoreState) (userID : String) (f t : Int)
    (metricName : String) (matchers : List Matcher) : Except Err (List String) :=
  match exceptMap (perMatcherChunkIDs env st userID f t metricName) matchers with
  | .error e => .error e
  | .ok idss => .ok (intersectLists idss)

/-- Modelled from the spec: external keys parse back to chunks whose key is
the id they were parsed from (ExternalKey is a pure, stable function of the
chunk, §3). -/
def keyRoundtripOK (env : StoreEnv) (userID : String) (ids : List String) : Bool :=
  ids.all (fun id =>
    match env.parseExternalKey userID id with
    | .ok pc => env.extKey pc == id
    | .error _ => true)

/-- Modelled from the spec: index-integrity invariant (§3) — a decoded row
label value under a matcher query agrees with the label the referenced chunk
actually carries. -/
def matcherLabelOK (env : StoreEnv) (st : StoreState) (userID : String) (f t : Int)
    (metricName : String) (m : Matcher) : Bool :=
  match (if m.mtype ≠ MatchType.MatchEqual
          then env.schemaReadMetricLabel f t userID metricName m.name
          else env.schemaReadMetricLabelValue f t userID metricName m.name m.value) with
  | .error _ => true
  | .ok queries =>
    (lookupEntriesByQueries st queries).all (fun e =>
      match env.parseRangeValue e.rangeValue e.value with
      | .error _ => true
      | .ok p =>
        match fetchOne st p.1 with
        | .error _ => true
        | .ok chunk => labelsGet chunk.metric m.name == p.2)

/-- A stored chunk for the intersection witness. -/
def cq : Chunk := ⟨"u7", 0, 5, [(metricNameLabel, "m"), ("job", "api")], 9, 0, [(1, 1)]⟩

/-- The shell chunk its external key parses to. -/
def pcq : Chunk := ⟨"u7", 0, 5, [], 9, 0, []⟩

/-- Environment for the intersection witness: a one-table schema, a range
value naming the chunk key and label value, and key K1 for the chunk. -/
def envQ : StoreEnv :=
  { trivEnv with
      schemaReadMetric := fun _ _ u mn => .ok [⟨"t1", u ++ ":" ++ mn⟩]
      schemaReadMetricLabel := fun _ _ u mn ln => .ok [⟨"t1", u ++ ":" ++ mn ++ ":" ++ ln⟩]
      schemaReadMetricLabelValue := fun _ _ u mn ln lv =>
        .ok [⟨"t1", u ++ ":" ++ mn ++ ":" ++ ln ++ ":" ++ lv⟩]
      parseRangeValue := fun r _ =>
        if r = "K1|api" then .ok ("K1", "api") else .error (.schemaErr "bad range value")
      parseExternalKey := fun _ id =>
        if id = "K1" then .ok pcq else .error (.clientErr "bad key")
      extKey := fun ch => if ch.fingerprint = 9 then "K1" else "other" }

/-- Store state for the intersection witness: one index row and the chunk
payload under K1. -/
def stQ : StoreState :=
  ⟨[⟨"t1", "u7:m:job:api", "K1|api", "x"⟩], [("K1", cq)], []⟩

/-- A chunk whose interval lies more than five minutes past a zero clock. -/
def cC2 : Chunk := ⟨"u7", 400000, 500000, [(metricNameLabel, "m")], 9, 0, [(450000, 1)]⟩

/-- A healthy, schema-coherent environment whose clock is at zero: write
entries land under the all-of-metric hash that the metric read queries use,
range values decode to the chunk key, and the key parses back to the chunk. -/
def envC2 : StoreEnv :=
  { trivEnv with
      schemaWriteEntries := fun _ _ u mn _ key => .ok [⟨"t1", u ++ ":" ++ mn, key ++ "|", "v"⟩]
      schemaReadMetric := fun _ _ u mn => .ok [⟨"t1", u ++ ":" ++ mn⟩]
      parseRangeValue := fun r _ =>
        if r = "K1|" then .ok ("K1", "") else .error (.schemaErr "bad range value")
      parseExternalKey := fun _ id =>
        if id = "K1" then .ok cC2 else .error (.clientErr "bad key")
      extKey := fun _ => "K1"
      now := 0 }

/-- Environment for the read-your-write witness: the intersection-witness
schema plus a coherent write path — the entry written for a chunk lands under
the label-value hash its read query uses. -/
def envW2 : StoreEnv :=
  { envQ with
      schemaWriteEntries := fun _ _ u mn metric key =>
        .ok [⟨"t1", u ++ ":" ++ mn ++ ":job:" ++ labelsGet metric "job",
              key ++ "|" ++ labelsGet metric "job", "x"⟩] }

/-- The state reached by writing the witness chunk into the empty store. -/
def stW2 : StoreState := (PutOne envW2 trivState cq.From cq.Through cq).1

/-- Claim C7 helper: pairwise-distinct dedup keys in the output of the dedup
loop, and freshness with respect to the seen set. -/
theorem dedupEntries_keys (seen : List String) (l : List IndexEntry) :
    (dedupEntries seen l).Pairwise (fun a b => opKey a ≠ opKey b) ∧
      ∀ o ∈ dedupEntries seen l, opKey o ∉ seen := by
  induction l generalizing seen with
  | nil => simp [dedupEntries]
  | cons e rest ih =>
    by_cases hmem : entryKey e ∈ seen
    · simp only [dedupEntries, if_pos hmem]
      exact ih seen
    · simp only [dedupEntries, if_neg hmem]
      have h := ih (entryKey e :: seen)
      constructor
      · refine List.Pairwise.cons ?_ h.1
        intro o ho
        have hfresh := h.2 o ho
        have hne : opKey o ≠ entryKey e := by
          intro hk
          exact hfresh (by simp [hk])
        intro hk
        apply hne
        rw [← hk]
        simp [opKey, opTriple, entryKey]
      · intro o ho
        rcases List.mem_cons.mp ho with ho | ho
        · subst ho
          simpa [opKey, opTriple, entryKey] using hmem
        · have hfresh := h.2 o ho
          intro hs
          exact hfresh (by simp [hs])

/-- Equal (table, hash, range) triples give equal dedup keys. -/
theorem opKey_congr {a b : WriteOp} (h : opTriple a = opTriple b) : opKey a = opKey b := by
  simp [opKey, h]

/-- Claim C7: for every chunk and time range, the WriteBatch produced by
`calculateIndexEntries` contains no two operations with the same
(TableName, HashValue, RangeValue) triple, regardless of the entry list the
schema emits. -/
theorem calculateIndexEntries_dedup (env : StoreEnv) (userID : String) (f t : Int)
    (chunk : Chunk) (b : WriteBatch) (hok : calculateIndexEntries env userID f t chunk = .ok b) :
    b.Pairwise (fun o1 o2 => opTriple o1 ≠ opTriple o2) := by
  unfold calculateIndexEntries at hok
  by_cases hname : labelsGet chunk.metric metricNameLabel = ""
  · rw [if_pos hname] at hok
    exact absurd hok (by simp)
  · rw [if_neg hname] at hok
    cases hw : env.schemaWriteEntries f t userID (labelsGet chunk.metric metricNameLabel)
        chunk.metric (env.extKey chunk) with
    | error e =>
      rw [hw] at hok
      exact absurd hok (by simp)
    | ok entries =>
      rw [hw] at hok
      simp only [Except.ok.injEq] at hok
      have hkeys := (dedupEntries_keys [] entries).1
      rw [← hok]
      exact hkeys.imp (fun hk htriple => hk (opKey_congr htriple))

/-- Membership is preserved by the insertion step of the sort. -/
theorem mem_insertSorted {x s : String} {l : List String} :
    x ∈ insertSorted s l ↔ x = s ∨ x ∈ l := by
  induction l with
  | nil => simp [insertSorted]
  | cons a as ih =>
    by_cases h : s ≤ a
    · rw [insertSorted, if_pos h]
      simp only [List.mem_cons]
    · rw [insertSorted, if_neg h]
      simp only [List.mem_cons, ih]
      tauto

/-- Membership is preserved by the sort. -/
theorem mem_sortStrings {x : String} {l : List String} : x ∈ sortStrings l ↔ x ∈ l := by
  induction l with
  | nil => simp [sortStrings]
  | cons a as ih => simp [sortStrings, mem_insertSorted, ih]

/-- Membership is preserved by adjacent dedup. -/
theorem mem_uniqueStrings {x : String} : ∀ {l : List String}, x ∈ uniqueStrings l ↔ x ∈ l
  | [] => by simp [uniqueStrings]
  | [a] => by simp [uniqueStrings]
  | a :: b :: rest => by
    by_cases h : a == b
    · have ha : a = b := by simpa using h
      rw [uniqueStrings, if_pos h, @mem_uniqueStrings x (b :: rest)]
      subst ha
      simp only [List.mem_cons]
      tauto
    · rw [uniqueStrings, if_neg h]
      simp only [List.mem_cons, @mem_uniqueStrings x (b :: rest)]

/-- The intersection step keeps exactly the common elements. -/
theorem mem_intersectStrings {x : String} {a b : List String} :
    x ∈ intersectStrings a b ↔ x ∈ a ∧ x ∈ b := by
  simp [intersectStrings, List.mem_filter, List.elem_iff]

/-- Folded intersection keeps exactly the elements common to the seed and
every further list. -/
theorem mem_foldl_intersect {x : String} : ∀ (ls : List (List String)) (acc : List String),
    x ∈ ls.foldl intersectStrings acc ↔ x ∈ acc ∧ ∀ l ∈ ls, x ∈ l := by
  intro ls
  induction ls with
  | nil => simp
  | cons l ls ih =>
    intro acc
    rw [List.foldl_cons, ih, mem_intersectStrings]
    simp only [List.mem_cons]
    constructor
    · rintro ⟨⟨hacc, hl⟩, hrest⟩
      exact ⟨hacc, fun l' hl' => by rcases hl' with h | h; exact h ▸ hl; exact hrest l' h⟩
    · rintro ⟨hacc, hall⟩
      exact ⟨⟨hacc, hall l (Or.inl rfl)⟩, fun l' hl' => hall l' (Or.inr hl')⟩

/-- The fan-out coordinator computes the intersection of all per-matcher
sets. -/
theorem mem_intersectLists {x : String} {l : List String} {ls : List (List String)} :
    x ∈ intersectLists (l :: ls) ↔ ∀ l' ∈ l :: ls, x ∈ l' := by
  rw [intersectLists, mem_foldl_intersect]
  simp only [List.mem_cons]
  constructor
  · rintro ⟨hl, hrest⟩ l' hl'
    rcases hl' with h | h
    · exact h ▸ hl
    · exact hrest l' h
  · intro hall
    exact ⟨hall l (Or.inl rfl), fun l' hl' => hall l' (Or.inr hl')⟩

/-- Every output of a successful `exceptMap` comes from some input. -/
theorem exceptMap_ok_mem_out {α β : Type} {g : α → Except Err β} :
    ∀ {l : List α} {ys : List β}, exceptMap g l = .ok ys →
      ∀ y ∈ ys, ∃ x ∈ l, g x = .ok y := by
  intro l
  induction l with
  | nil =>
    intro ys h y hy
    simp [exceptMap] at h
    subst h
    simp at hy
  | cons a as ih =>
    intro ys h y hy
    rw [exceptMap] at h
    cases ha : g a with
    | error e => rw [ha] at h; exact absurd h (by simp)
    | ok b =>
      rw [ha] at h
      cases hrest : exceptMap g as with
      | error e => rw [hrest] at h; exact absurd h (by simp)
      | ok bs =>
        rw [hrest] at h
        simp only [Except.ok.injEq] at h
        subst h
        rcases List.mem_cons.mp hy with hy | hy
        · exact ⟨a, List.mem_cons_self a as, hy ▸ ha⟩
        · obtain ⟨x, hx, hgx⟩ := ih hrest y hy
          exact ⟨x, List.mem_cons_of_mem a hx, hgx⟩

/-- Every input of a successful `exceptMap` lands in the output. -/
theorem exceptMap_ok_mem_src {α β : Type} {g : α → Except Err β} :
    ∀ {l : List α} {ys : List β}, exceptMap g l = .ok ys →
      ∀ x ∈ l, ∃ y ∈ ys, g x = .ok y := by
  intro l
  induction l with
  | nil =>
    intro ys h x hx
    simp at hx
  | cons a as ih =>
    intro ys h x hx
    rw [exceptMap] at h
    cases ha : g a with
    | error e => rw [ha] at h; exact absurd h (by simp)
    | ok b =>
      rw [ha] at h
      cases hrest : exceptMap g as with
      | error e => rw [hrest] at h; exact absurd h (by simp)
      | ok bs =>
        rw [hrest] at h
        simp only [Except.ok.injEq] at h
        subst h
        rcases List.mem_cons.mp hx with hx | hx
        · exact ⟨b, List.mem_cons_self b bs, hx ▸ ha⟩
        · obtain ⟨y, hy, hgy⟩ := ih hrest x hx
          exact ⟨y, List.mem_cons_of_mem b hy, hgy⟩

/-- The extracted metric-name matcher is one of the given matchers and is on
the metric-name label. -/
theorem metricNameMatcher_spec : ∀ {ms : List Matcher} {mm : Matcher} {rest : List Matcher},
    metricNameMatcherFromMatchers ms = some (mm, rest) →
      mm ∈ ms ∧ mm.name = metricNameLabel := by
  intro ms
  induction ms with
  | nil => intro mm rest h; exact absurd h (by simp [metricNameMatcherFromMatchers])
  | cons m tail ih =>
    intro mm rest h
    rw [metricNameMatcherFromMatchers] at h
    by_cases hn : (m.name == metricNameLabel) = true
    · rw [if_pos hn] at h
      simp only [Option.some.injEq, Prod.mk.injEq] at h
      refine ⟨by simp [← h.1], ?_⟩
      rw [← h.1]
      simpa using hn
    · rw [if_neg hn] at h
      cases hrec : metricNameMatcherFromMatchers tail with
      | none => rw [hrec] at h; exact absurd h (by simp)
      | some pr =>
        rw [hrec] at h
        cases pr with
        | mk mm' others =>
          simp only [Option.some.injEq, Prod.mk.injEq] at h
          obtain ⟨hspecmem, hspecname⟩ := ih hrec
          exact ⟨by simp [← h.1, hspecmem], h.1 ▸ hspecname⟩

/-- Claim C5: a Get whose time range passes validation but whose matchers
contain no equality matcher on the metric-name label fails with the
HTTP-400 error "query must contain metric name"; the result is the same for
every index state, so no index lookup can influence it. -/
theorem get_requires_metric_name (env : StoreEnv) (st : StoreState) (userID : String)
    (f t : Int) (ms : List Matcher) (p : Int × Int)
    (hval : validateQueryTimeRange env userID f t = .ok (some p))
    (hnm : ∀ m ∈ ms, m.name = metricNameLabel → m.mtype ≠ MatchType.MatchEqual) :
    Get env st userID f t ms = .error (.badRequest "query must contain metric name") := by
  obtain ⟨f1, t1⟩ := p
  rw [Get, validateQuery, hval]
  cases hmm : metricNameMatcherFromMatchers ms with
  | none => rfl
  | some pr =>
    cases pr with
    | mk mm rest =>
      obtain ⟨hmem, hname⟩ := metricNameMatcher_spec hmm
      have hne := hnm mm hmem hname
      simp only [if_pos hne]

/-- Claim C5 witness: with a valid time range and a sole non-equality
metric-name matcher, Get returns the 400 error. -/
theorem get_requires_metric_name_witness :
    Get trivEnv trivState "u7" 0 5 [mNameRegex] =
      .error (.badRequest "query must contain metric name") :=
  get_requires_metric_name trivEnv trivState "u7" 0 5 [mNameRegex] (0, 5) (by decide)
    (by
      intro m hm _
      rw [List.mem_singleton] at hm
      subst hm
      decide)

/-- Claim C6 counterexample: with `MaxQueryLength(userID) = 0`, a query whose
length strictly exceeds the limit is not rejected: validation and all three
query entry points succeed. -/
theorem queryLength_disabled_counterexample :
    ((5 : Int) - 0 > trivEnv.maxQueryLength "u7") ∧
      validateQueryTimeRange trivEnv "u7" 0 5 = .ok (some (0, 5)) ∧
      Get trivEnv trivState "u7" 0 5 [mName] = .ok [] ∧
      LabelValuesForMetricName trivEnv trivState "u7" 0 5 "m" "l" = .ok [] ∧
      LabelNamesForMetricName trivEnv trivState "u7" 0 5 "m" = .ok [] := by
  refine ⟨by decide, by decide, by decide, by decide, by decide⟩

/-- Claim C6 (amended): when `MaxQueryLength(userID)` is positive and
`through − from` exceeds it, validation and all three query entry points
fail with the query-too-long 400 error; otherwise the length check passes
(validation returns ok). -/
theorem queryLength_enforced (env : StoreEnv) (st : StoreState) (userID : String)
    (f t : Int) (metricName labelName : String) (hft : f ≤ t) :
    (env.maxQueryLength userID > 0 → t - f > env.maxQueryLength userID →
      validateQueryTimeRange env userID f t = .error errQueryTooLong ∧
      (∀ ms, Get env st userID f t ms = .error errQueryTooLong) ∧
      LabelValuesForMetricName env st userID f t metricName labelName = .error errQueryTooLong ∧
      LabelNamesForMetricName env st userID f t metricName = .error errQueryTooLong) ∧
    (¬(env.maxQueryLength userID > 0 ∧ t - f > env.maxQueryLength userID) →
      ∃ r, validateQueryTimeRange env userID f t = .ok r) := by
  have hnotlt : ¬(t < f) := not_lt.mpr hft
  constructor
  · intro hpos hexceed
    have hverr : validateQueryTimeRange env userID f t = .error errQueryTooLong := by
      rw [validateQueryTimeRange, if_neg hnotlt, if_pos ⟨hpos, hexceed⟩]
    refine ⟨hverr, ?_, ?_, ?_⟩
    · intro ms
      rw [Get, validateQuery, hverr]
    · rw [LabelValuesForMetricName, hverr]
    · rw [LabelNamesForMetricName, hverr]
  · intro hno
    rw [validateQueryTimeRange, if_neg hnotlt, if_neg hno]
    by_cases hfut : f > env.now
    · exact ⟨none, by rw [if_pos hfut]⟩
    · refine ⟨some _, by rw [if_neg hfut]⟩

/-- Claim C6 witness: with a limit of 10 and a range of length 100, the Get
path fails with the query-too-long error. -/
theorem queryLength_enforced_witness :
    Get envLim trivState "u7" 0 100 [mName] = .error errQueryTooLong :=
  (((queryLength_enforced envLim trivState "u7" 0 100 "m" "l" (by decide)).1
    (by decide) (by decide)).2.1) [mName]


/-- Claim C4: `PutOne` writes the payload first, then the best-effort cache,
then the index.  A chunk-client failure aborts before any state change (so
no index write can happen); the returned error never depends on the cache
write-back outcome; an index batch-write failure is returned with the
payload already written and the index untouched; and whenever the chunk
client succeeds the payload is persisted. -/
theorem putOne_step_order (env : StoreEnv) (st : StoreState) (f t : Int) (c : Chunk) :
    (∀ e, env.putChunksErr = some e → PutOne env st f t c = (st, some e)) ∧
    (∀ e', (PutOne { env with cacheWriteErr := some e' } st f t c).2 =
        (PutOne { env with cacheWriteErr := none } st f t c).2) ∧
    (∀ e b, env.putChunksErr = none →
      calculateIndexEntries env c.userID f t c = .ok b → env.batchWriteErr = some e →
      (PutOne env st f t c).2 = some e ∧
        ((PutOne env st f t c).1).chunkDB = upsertChunk st.chunkDB (env.extKey c) c ∧
        ((PutOne env st f t c).1).index = st.index) ∧
    (env.putChunksErr = none →
      ((PutOne env st f t c).1).chunkDB = upsertChunk st.chunkDB (env.extKey c) c) := by
  obtain ⟨sw, srm, srml, srmlv, prv, pek, ek, pce, bwe, cwe, mql, mcq, mlb, nw⟩ := env
  refine ⟨?_, ?_, ?_, ?_⟩
  · intro e he
    simp only [StoreEnv.putChunksErr] at he
    subst he
    rfl
  · intro e'
    cases pce with
    | some x => rfl
    | none =>
      cases hc : calculateIndexEntries ⟨sw, srm, srml, srmlv, prv, pek, ek, none, bwe, some e',
          mql, mcq, mlb, nw⟩ c.userID f t c with
      | error e =>
        have hc2 : calculateIndexEntries ⟨sw, srm, srml, srmlv, prv, pek, ek, none, bwe, none,
            mql, mcq, mlb, nw⟩ c.userID f t c = .error e := hc
        simp [PutOne, hc, hc2]
      | ok b =>
        have hc2 : calculateIndexEntries ⟨sw, srm, srml, srmlv, prv, pek, ek, none, bwe, none,
            mql, mcq, mlb, nw⟩ c.userID f t c = .ok b := hc
        cases bwe <;> simp [PutOne, hc, hc2]
  · intro e b hp hc hb
    simp only [StoreEnv.putChunksErr] at hp
    simp only [StoreEnv.batchWriteErr] at hb
    subst hp
    subst hb
    cases cwe <;> refine ⟨?_, ?_, ?_⟩ <;> simp [PutOne, hc]
  · intro hp
    simp only [StoreEnv.putChunksErr] at hp
    subst hp
    cases hc : calculateIndexEntries ⟨sw, srm, srml, srmlv, prv, pek, ek, none, bwe, cwe,
        mql, mcq, mlb, nw⟩ c.userID f t c with
    | error e => cases cwe <;> simp [PutOne, hc]
    | ok batch => cases cwe <;> cases bwe <;> simp [PutOne, hc]

/-- Claim C4 witness: a failing chunk client aborts `PutOne` with its error
and an unchanged state; a failing index client reports its error with the
payload already written and the index untouched. -/
theorem putOne_step_order_witness :
    PutOne envPutFail trivState 1000 2000 chunkW = (trivState, some (.clientErr "disk full")) ∧
      (PutOne envBatchFail trivState 1000 2000 chunkW).2 = some (.clientErr "index down") := by
  constructor
  · exact (putOne_step_order envPutFail trivState 1000 2000 chunkW).1 (.clientErr "disk full") rfl
  · exact ((putOne_step_order envBatchFail trivState 1000 2000 chunkW).2.2.1
      (.clientErr "index down") (dedupEntries [] [⟨"tb", "hs", "rg", "vv"⟩]) rfl (by decide) rfl).1

/-- Claim C10: for a chunk without a metric-name label and a healthy chunk
client, `PutOne` first persists the payload and only then fails with
`ErrMetricNameLabelMissing`, leaving the index unchanged and the payload in
place. -/
theorem putOne_no_metric_name (env : StoreEnv) (st : StoreState) (f t : Int) (c : Chunk)
    (hname : labelsGet c.metric metricNameLabel = "")
    (hp : env.putChunksErr = none) :
    (PutOne env st f t c).2 = some .metricNameLabelMissing ∧
      ((PutOne env st f t c).1).chunkDB = upsertChunk st.chunkDB (env.extKey c) c ∧
      ((PutOne env st f t c).1).index = st.index := by
  have hcalc : calculateIndexEntries env c.userID f t c = .error .metricNameLabelMissing := by
    rw [calculateIndexEntries, if_pos hname]
  cases hcw : env.cacheWriteErr <;> refine ⟨?_, ?_, ?_⟩ <;> simp [PutOne, hp, hcalc, hcw]

/-- Claim C10 witness: the metric-name-less chunk is persisted and the error
returned on the concrete environment. -/
theorem putOne_no_metric_name_witness :
    (PutOne trivEnv trivState 1000 2000 chunkNoName).2 = some .metricNameLabelMissing ∧
      ((PutOne trivEnv trivState 1000 2000 chunkNoName).1).chunkDB =
        upsertChunk trivState.chunkDB (trivEnv.extKey chunkNoName) chunkNoName ∧
      ((PutOne trivEnv trivState 1000 2000 chunkNoName).1).index = trivState.index :=
  putOne_no_metric_name trivEnv trivState 1000 2000 chunkNoName (by decide) rfl

/-- Claim C8: each of the four RPCs fails when the metadata or its `user`
field is absent, returns an empty success for an unknown tenant, and is
dispatched exactly to the named tenant's BucketStore when it exists. -/
theorem userStore_tenant_routing (u : UserStore) (req : Nat) :
    (Info u none req = .error .noMetadata ∧ Series u none req = .error .noMetadata ∧
      LabelNames u none req = .error .noMetadata ∧ LabelValues u none req = .error .noMetadata) ∧
    (∀ md, mdGet md "user" = [] →
      Info u (some md) req = .error .noUserID ∧ Series u (some md) req = .error .noUserID ∧
      LabelNames u (some md) req = .error .noUserID ∧
      LabelValues u (some md) req = .error .noUserID) ∧
    (∀ md uid vs, mdGet md "user" = uid :: vs → getStore u uid = none →
      Info u (some md) req = .ok none ∧ Series u (some md) req = .ok none ∧
      LabelNames u (some md) req = .ok none ∧ LabelValues u (some md) req = .ok none) ∧
    (∀ md uid vs s, mdGet md "user" = uid :: vs → getStore u uid = some s →
      Info u (some md) req = .ok (some (s.infoResp req)) ∧
      Series u (some md) req = .ok (some (s.seriesResp req)) ∧
      LabelNames u (some md) req = .ok (some (s.labelNamesResp req)) ∧
      LabelValues u (some md) req = .ok (some (s.labelValuesResp req))) := by
  refine ⟨⟨rfl, rfl, rfl, rfl⟩, ?_, ?_, ?_⟩
  · intro md h
    simp [Info, Series, LabelNames, LabelValues, h]
  · intro md uid vs h hs
    simp [Info, Series, LabelNames, LabelValues, h, hs]
  · intro md uid vs s h hs
    simp [Info, Series, LabelNames, LabelValues, h, hs]

/-- Claim C8 witness: dispatch to the known tenant `a` and empty success for
the unknown tenant `z` on a concrete UserStore. -/
theorem userStore_tenant_routing_witness :
    (Info uW (some mdW) 0 = .ok (some 7) ∧ Series uW (some mdW) 0 = .ok (some [1, 2])) ∧
      Info uW (some mdX) 0 = .ok none := by
  constructor
  · have h := (userStore_tenant_routing uW 0).2.2.2 mdW "a" [] bsW rfl rfl
    exact ⟨h.1, h.2.1⟩
  · exact ((userStore_tenant_routing uW 0).2.2.1 mdX "z" [] rfl rfl).1

/-- Claim C7 witness: the duplicated schema entry is deduplicated to a batch
with pairwise-distinct triples. -/
theorem calculateIndexEntries_dedup_witness :
    (dedupEntries [] dupEntries).Pairwise (fun o1 o2 => opTriple o1 ≠ opTriple o2) :=
  calculateIndexEntries_dedup envDup "u7" 1000 2000 chunkW (dedupEntries [] dupEntries) rfl

/-- Bumping a key makes it present with the incremented count. -/
theorem lookupCount_bumpCount_self (m : List (Int × Nat)) (k : Int) (v : Nat) :
    lookupCount (bumpCount m k v) k = some ((lookupCount m k).getD 0 + v) := by
  induction m with
  | nil => simp [bumpCount, lookupCount]
  | cons kv rest ih =>
    by_cases h : (kv.1 == k) = true
    · rw [bumpCount, if_pos h]
      rw [lookupCount, if_pos h, lookupCount, if_pos h]
      simp
    · rw [bumpCount, if_neg h]
      rw [lookupCount, if_neg h, lookupCount, if_neg h]
      exact ih

/-- Bumping a key leaves every other key unchanged. -/
theorem lookupCount_bumpCount_other (m : List (Int × Nat)) (k k' : Int) (v : Nat)
    (hne : k' ≠ k) :
    lookupCount (bumpCount m k v) k' = lookupCount m k' := by
  induction m with
  | nil =>
    rw [bumpCount, lookupCount, lookupCount]
    rw [if_neg (by simp only [beq_iff_eq]; omega), lookupCount]
  | cons kv rest ih =>
    by_cases h : (kv.1 == k) = true
    · rw [bumpCount, if_pos h]
      have hk : kv.1 = k := by simpa using h
      have h' : ¬((kv.1 == k') = true) := by simp only [beq_iff_eq]; omega
      rw [lookupCount, if_neg h', lookupCount, if_neg h']
    · rw [bumpCount, if_neg h]
      by_cases h2 : (kv.1 == k') = true
      · rw [lookupCount, if_pos h2, lookupCount, if_pos h2]
      · rw [lookupCount, if_neg h2, lookupCount, if_neg h2]
        exact ih

/-- The key set after a bump: unchanged when present, else the key appended. -/
theorem keys_bumpCount (m : List (Int × Nat)) (k : Int) (v : Nat) :
    (bumpCount m k v).map Prod.fst =
      if k ∈ m.map Prod.fst then m.map Prod.fst else m.map Prod.fst ++ [k] := by
  induction m with
  | nil => simp [bumpCount]
  | cons kv rest ih =>
    by_cases h : (kv.1 == k) = true
    · have hk : kv.1 = k := by simpa using h
      rw [bumpCount, if_pos h]
      simp [hk]
    · have hk : ¬(kv.1 = k) := by simpa using h
      rw [bumpCount, if_neg h]
      by_cases hmem : k ∈ rest.map Prod.fst
      · simp only [List.map_cons, ih, if_pos hmem]
        rw [if_pos (by simp [hmem])]
      · simp only [List.map_cons, ih, if_neg hmem]
        rw [if_neg (by simp only [List.mem_cons]; push_neg; exact ⟨fun hh => hk hh.symm, hmem⟩)]
        simp

/-- Bumping preserves distinctness of keys. -/
theorem nodup_keys_bumpCount (m : List (Int × Nat)) (k : Int) (v : Nat)
    (h : (m.map Prod.fst).Nodup) : ((bumpCount m k v).map Prod.fst).Nodup := by
  rw [keys_bumpCount]
  by_cases hmem : k ∈ m.map Prod.fst
  · rwa [if_pos hmem]
  · rw [if_neg hmem]
    rw [List.nodup_append]
    refine ⟨h, List.nodup_singleton k, ?_⟩
    intro a ha hk
    rw [List.mem_singleton] at hk
    exact hmem (hk ▸ ha)

/-- A key is present exactly when it occurs in the key set. -/
theorem lookupCount_isSome_iff (m : List (Int × Nat)) (k : Int) :
    (lookupCount m k).isSome = true ↔ k ∈ m.map Prod.fst := by
  induction m with
  | nil => simp [lookupCount]
  | cons kv rest ih =>
    by_cases h : (kv.1 == k) = true
    · have hk : kv.1 = k := by simpa using h
      rw [lookupCount, if_pos h]
      simp [hk]
    · have hk : ¬(kv.1 = k) := by simpa using h
      rw [lookupCount, if_neg h]
      simp only [List.map_cons, List.mem_cons, ih]
      constructor
      · exact Or.inr
      · rintro (hh | hh)
        · exact absurd hh.symm hk
        · exact hh

/-- The delete/reindex tail never changes the counts. -/
theorem handleRowTail_counts (env : ScanEnv) (h1 : ScanHandler) (org : Int) (r : ScanRow) :
    (handleRowTail env h1 org r).counts = h1.counts := by
  rw [handleRowTail]
  split
  · rfl
  · split
    · split
      · rfl
      · split
        · rfl
        · rfl
    · rfl

/-- The counts after one row: bumped at the row's tenant when positive,
otherwise unchanged. -/
theorem handleRow_counts_eq (env : ScanEnv) (h : ScanHandler) (r : ScanRow) :
    (handleRow env h r).counts =
      if env.orgFromHash r.hashValue ≤ 0 then h.counts
      else bumpCount h.counts (env.orgFromHash r.hashValue) 1 := by
  rw [handleRow]
  by_cases horg : env.orgFromHash r.hashValue ≤ 0
  · rw [if_pos horg, if_pos horg]
  · rw [if_neg horg, if_neg horg, handleRowTail_counts]

/-- Row steps never touch non-positive tenant keys. -/
theorem foldRows_counts_nonpos (env : ScanEnv) (org : Int) (hpos : org ≤ 0) :
    ∀ (rows : List ScanRow) (h : ScanHandler),
      lookupCount ((rows.foldl (handleRow env) h).counts) org = lookupCount h.counts org := by
  intro rows
  induction rows with
  | nil => intro h; rfl
  | cons r rest ih =>
    intro h
    rw [List.foldl_cons, ih]
    rw [handleRow_counts_eq]
    by_cases horg : env.orgFromHash r.hashValue ≤ 0
    · rw [if_pos horg]
    · rw [if_neg horg]
      exact lookupCount_bumpCount_other _ _ _ _ (by omega)

/-- Row steps preserve distinctness of the count keys. -/
theorem foldRows_counts_nodup (env : ScanEnv) :
    ∀ (rows : List ScanRow) (h : ScanHandler),
      ((h.counts.map Prod.fst).Nodup) →
        (((rows.foldl (handleRow env) h).counts).map Prod.fst).Nodup := by
  intro rows
  induction rows with
  | nil => intro h hn; exact hn
  | cons r rest ih =>
    intro h hn
    rw [List.foldl_cons]
    refine ih _ ?_
    rw [handleRow_counts_eq]
    by_cases horg : env.orgFromHash r.hashValue ≤ 0
    · rwa [if_pos horg]
    · rw [if_neg horg]
      exact nodup_keys_bumpCount _ _ _ hn

/-- The per-tenant count after a row sequence: present exactly when already
present or some row carries the tenant, and incremented by the number of its
rows. -/
theorem foldRows_counts_pos (env : ScanEnv) (org : Int) (hpos : 0 < org) :
    ∀ (rows : List ScanRow) (h : ScanHandler),
      lookupCount ((rows.foldl (handleRow env) h).counts) org =
        if (lookupCount h.counts org).isSome = true ∨ 0 < countOrg env rows org then
          some ((lookupCount h.counts org).getD 0 + countOrg env rows org)
        else none := by
  intro rows
  induction rows with
  | nil =>
    intro h
    rw [List.foldl_nil]
    by_cases hs : (lookupCount h.counts org).isSome = true
    · rw [if_pos (Or.inl hs)]
      cases ho : lookupCount h.counts org with
      | none => rw [ho] at hs; simp at hs
      | some v => simp [countOrg]
    · rw [if_neg (by simpa [countOrg] using hs)]
      cases ho : lookupCount h.counts org with
      | none => rfl
      | some v => rw [ho] at hs; simp at hs
  | cons r rest ih =>
    intro h
    rw [List.foldl_cons, ih]
    rw [handleRow_counts_eq]
    by_cases horg : env.orgFromHash r.hashValue ≤ 0
    · rw [if_pos horg]
      have hc0 : countOrg env (r :: rest) org = countOrg env rest org := by
        rw [countOrg, countOrg, List.countP_cons,
          if_neg (by simp only [beq_iff_eq]; omega)]
        omega
      rw [hc0]
    · rw [if_neg horg]
      by_cases he : env.orgFromHash r.hashValue = org
      · have hc1 : countOrg env (r :: rest) org = countOrg env rest org + 1 := by
          rw [countOrg, countOrg, List.countP_cons, if_pos (by simpa using he)]
        rw [hc1, he, lookupCount_bumpCount_self]
        rw [if_pos (Or.inl (by simp))]
        by_cases hs : (lookupCount h.counts org).isSome = true
        · rw [if_pos (Or.inl hs)]
          simp only [Option.getD_some, Option.some.injEq]
          omega
        · rw [if_pos (Or.inr (by omega))]
          have hnone : lookupCount h.counts org = none := by
            cases ho : lookupCount h.counts org with
            | none => rfl
            | some v => rw [ho] at hs; simp at hs
          rw [hnone]
          simp only [Option.getD_none, Option.getD_some, Option.some.injEq]
          omega
      · have hc0 : countOrg env (r :: rest) org = countOrg env rest org := by
          rw [countOrg, countOrg, List.countP_cons,
            if_neg (by simp only [beq_iff_eq]; omega)]
          omega
        rw [hc0, lookupCount_bumpCount_other _ _ _ _ (fun hh => he hh.symm)]

/-- A segment increments the pages-scanned counter exactly once per page. -/
theorem processPages_counter (env : ScanEnv) :
    ∀ (pages : List (List ScanRow)) (h : ScanHandler) (pc : Nat),
      (processPages env h pc pages).2 = pc + pages.length := by
  intro pages
  induction pages with
  | nil => intro h pc; simp [processPages]
  | cons p ps ih =>
    intro h pc
    rw [processPages, handlePage]
    rw [ih]
    simp only [List.length_cons]
    omega

/-- A segment's final handler is the row fold over its concatenated pages. -/
theorem processPages_handler (env : ScanEnv) :
    ∀ (pages : List (List ScanRow)) (h : ScanHandler) (pc : Nat),
      (processPages env h pc pages).1 = (joinRows pages).foldl (handleRow env) h := by
  intro pages
  induction pages with
  | nil => intro h pc; rfl
  | cons p ps ih =>
    intro h pc
    rw [processPages, handlePage, ih, joinRows, List.foldl_append]

/-- Accumulating a summary adds its recorded counts pointwise. -/
theorem lookupCount_accumulate_getD (b : List (Int × Nat)) :
    ∀ (a : List (Int × Nat)) (k : Int),
      (lookupCount (accumulate a b) k).getD 0 = (lookupCount a k).getD 0 + assocSum b k := by
  induction b with
  | nil => intro a k; simp [accumulate, assocSum]
  | cons kv rest ih =>
    intro a k
    have hacc : accumulate a (kv :: rest) = accumulate (bumpCount a kv.1 kv.2) rest := by
      rw [accumulate, List.foldl_cons, accumulate]
    rw [hacc, ih]
    have hsum : assocSum (kv :: rest) k =
        (if kv.1 == k then kv.2 else 0) + assocSum rest k := by
      rw [assocSum, assocSum, List.map_cons, List.sum_cons]
    rw [hsum]
    by_cases he : (kv.1 == k) = true
    · have hk : kv.1 = k := by simpa using he
      rw [if_pos he, hk, lookupCount_bumpCount_self]
      simp only [Option.getD_some]
      omega
    · have hk : ¬(kv.1 = k) := by simpa using he
      rw [if_neg he, lookupCount_bumpCount_other _ _ _ _ (fun hh => hk hh.symm)]
      omega

/-- A key is present after accumulation exactly when it was present before or
occurs in the accumulated summary. -/
theorem lookupCount_accumulate_isSome (b : List (Int × Nat)) :
    ∀ (a : List (Int × Nat)) (k : Int),
      ((lookupCount (accumulate a b) k).isSome = true ↔
        (lookupCount a k).isSome = true ∨ k ∈ b.map Prod.fst) := by
  induction b with
  | nil => intro a k; simp [accumulate]
  | cons kv rest ih =>
    intro a k
    have hacc : accumulate a (kv :: rest) = accumulate (bumpCount a kv.1 kv.2) rest := by
      rw [accumulate, List.foldl_cons, accumulate]
    rw [hacc, ih]
    by_cases he : kv.1 = k
    · rw [he, lookupCount_bumpCount_self]
      simp [he]
    · rw [lookupCount_bumpCount_other _ _ _ _ (fun hh => he hh.symm)]
      simp only [List.map_cons, List.mem_cons]
      constructor
      · rintro (hh | hh)
        · exact Or.inl hh
        · exact Or.inr (Or.inr hh)
      · rintro (hh | hh | hh)
        · exact Or.inl hh
        · exact absurd hh.symm he
        · exact Or.inr hh

/-- Accumulation preserves distinctness of keys. -/
theorem nodup_keys_accumulate (b : List (Int × Nat)) :
    ∀ (a : List (Int × Nat)), ((a.map Prod.fst).Nodup) →
      (((accumulate a b).map Prod.fst).Nodup) := by
  induction b with
  | nil => intro a h; exact h
  | cons kv rest ih =>
    intro a h
    have hacc : accumulate a (kv :: rest) = accumulate (bumpCount a kv.1 kv.2) rest := by
      rw [accumulate, List.foldl_cons, accumulate]
    rw [hacc]
    exact ih _ (nodup_keys_bumpCount _ _ _ h)

/-- A key outside an association list contributes no sum. -/
theorem assocSum_eq_zero_of_not_mem (b : List (Int × Nat)) (k : Int)
    (h : k ∉ b.map Prod.fst) : assocSum b k = 0 := by
  induction b with
  | nil => rfl
  | cons kv rest ih =>
    simp only [List.map_cons, List.mem_cons] at h
    push_neg at h
    rw [assocSum, List.map_cons, List.sum_cons,
      if_neg (by simp only [beq_iff_eq]; exact fun hh => h.1 hh.symm)]
    have := ih h.2
    rw [assocSum] at this
    omega

/-- With distinct keys, the recorded sum for a key is its looked-up count. -/
theorem assocSum_eq_lookupCount (b : List (Int × Nat)) (k : Int)
    (h : (b.map Prod.fst).Nodup) : assocSum b k = (lookupCount b k).getD 0 := by
  induction b with
  | nil => rfl
  | cons kv rest ih =>
    simp only [List.map_cons, List.nodup_cons] at h
    by_cases he : (kv.1 == k) = true
    · have hk : kv.1 = k := by simpa using he
      rw [assocSum, List.map_cons, List.sum_cons, if_pos he, lookupCount, if_pos he]
      have hnot : k ∉ rest.map Prod.fst := hk ▸ h.1
      have hz := assocSum_eq_zero_of_not_mem rest k hnot
      rw [assocSum] at hz
      simp only [Option.getD_some]
      omega
    · rw [assocSum, List.map_cons, List.sum_cons, if_neg he, lookupCount, if_neg he]
      have := ih h.2
      rw [assocSum] at this
      omega

/-- The merged value of a key is the sum of the per-summary sums. -/
theorem lookupCount_fold_accumulate_getD (bs : List (List (Int × Nat))) :
    ∀ (a : List (Int × Nat)) (k : Int),
      (lookupCount (bs.foldl accumulate a) k).getD 0 =
        (lookupCount a k).getD 0 + (bs.map (fun b => assocSum b k)).sum := by
  induction bs with
  | nil => intro a k; simp
  | cons b rest ih =>
    intro a k
    rw [List.foldl_cons, ih, lookupCount_accumulate_getD]
    simp only [List.map_cons, List.sum_cons]
    omega

/-- A key is present in the merge exactly when present initially or in some
summary. -/
theorem lookupCount_fold_accumulate_isSome (bs : List (List (Int × Nat))) :
    ∀ (a : List (Int × Nat)) (k : Int),
      ((lookupCount (bs.foldl accumulate a) k).isSome = true ↔
        (lookupCount a k).isSome = true ∨ ∃ b ∈ bs, k ∈ b.map Prod.fst) := by
  induction bs with
  | nil => intro a k; simp
  | cons b rest ih =>
    intro a k
    rw [List.foldl_cons, ih, lookupCount_accumulate_isSome]
    constructor
    · rintro ((hh | hh) | ⟨b', hb', hk⟩)
      · exact Or.inl hh
      · exact Or.inr ⟨b, List.mem_cons_self b rest, hh⟩
      · exact Or.inr ⟨b', List.mem_cons_of_mem b hb', hk⟩
    · rintro (hh | ⟨b', hb', hk⟩)
      · exact Or.inl (Or.inl hh)
      · rcases List.mem_cons.mp hb' with hb' | hb'
        · exact Or.inl (Or.inr (hb' ▸ hk))
        · exact Or.inr ⟨b', hb', hk⟩

/-- The merge of distinct-keyed summaries has distinct keys. -/
theorem nodup_keys_fold_accumulate (bs : List (List (Int × Nat))) :
    ∀ (a : List (Int × Nat)), ((a.map Prod.fst).Nodup) →
      (((bs.foldl accumulate a).map Prod.fst).Nodup) := by
  induction bs with
  | nil => intro a h; exact h
  | cons b rest ih =>
    intro a h
    rw [List.foldl_cons]
    exact ih _ (nodup_keys_accumulate b a h)

/-- Counts over concatenated row lists add up. -/
theorem countOrg_append (env : ScanEnv) (l1 l2 : List ScanRow) (org : Int) :
    countOrg env (l1 ++ l2) org = countOrg env l1 org + countOrg env l2 org := by
  rw [countOrg, countOrg, countOrg, List.countP_append]

/-- The table-wide count is the sum of the per-segment counts. -/
theorem countOrg_join_segs (env : ScanEnv) (org : Int) :
    ∀ segs : List (List (List ScanRow)),
      (segs.map (fun pages => countOrg env (joinRows pages) org)).sum =
        countOrg env (joinRows (segs.map joinRows)) org := by
  intro segs
  induction segs with
  | nil => simp [joinRows, countOrg]
  | cons s rest ih =>
    simp only [List.map_cons, List.sum_cons, joinRows, countOrg_append, ih]

/-- Claim C9: every page bumps the pages-scanned counter exactly once; rows
with non-positive tenant ids are skipped while each other row increments its
tenant's count by one; and the merged summary holds exactly one (tenant,
count) pair for precisely the positive tenants that occur in the table, with
the count equal to their number of rows. -/
theorem scanner_summary (env : ScanEnv) (tbl rT : String) (os : List Int)
    (segs : List (List (List ScanRow))) :
    (∀ pages ∈ segs, (processPages env (newScanHandler tbl os rT) 0 pages).2 = pages.length) ∧
    ((mergeSummaries (segs.map (fun pages =>
        (processPages env (newScanHandler tbl os rT) 0 pages).1.counts))).map Prod.fst).Nodup ∧
    (∀ org, 0 < org →
      lookupCount (mergeSummaries (segs.map (fun pages =>
          (processPages env (newScanHandler tbl os rT) 0 pages).1.counts))) org =
        if 0 < countOrg env (joinRows (segs.map joinRows)) org then
          some (countOrg env (joinRows (segs.map joinRows)) org)
        else none) ∧
    (∀ org, org ≤ 0 →
      lookupCount (mergeSummaries (segs.map (fun pages =>
          (processPages env (newScanHandler tbl os rT) 0 pages).1.counts))) org = none) := by
  have hcounts : ∀ pages : List (List ScanRow),
      (processPages env (newScanHandler tbl os rT) 0 pages).1.counts =
        ((joinRows pages).foldl (handleRow env) (newScanHandler tbl os rT)).counts := by
    intro pages
    rw [processPages_handler]
  refine ⟨?_, ?_, ?_, ?_⟩
  · intro pages _
    rw [processPages_counter]
    omega
  · exact nodup_keys_fold_accumulate _ [] (by simp)
  · intro org hpos
    have hseg : ∀ pages : List (List ScanRow),
        lookupCount ((processPages env (newScanHandler tbl os rT) 0 pages).1.counts) org =
          if 0 < countOrg env (joinRows pages) org then
            some (countOrg env (joinRows pages) org) else none := by
      intro pages
      rw [hcounts, foldRows_counts_pos env org hpos]
      by_cases hc : 0 < countOrg env (joinRows pages) org
      · rw [if_pos (Or.inr hc), if_pos hc]
        have : lookupCount (newScanHandler tbl os rT).counts org = none := rfl
        rw [this]
        simp
      · rw [if_neg ?side, if_neg hc]
        case side =>
          rintro (hh | hh)
          · have : lookupCount (newScanHandler tbl os rT).counts org = none := rfl
            rw [this] at hh
            simp at hh
          · exact hc hh
    have hsegNodup : ∀ pages : List (List ScanRow),
        ((((processPages env (newScanHandler tbl os rT) 0 pages).1.counts).map Prod.fst).Nodup) := by
      intro pages
      rw [hcounts]
      exact foldRows_counts_nodup env _ _ (by simp [newScanHandler])
    have hassoc : ∀ pages : List (List ScanRow),
        assocSum ((processPages env (newScanHandler tbl os rT) 0 pages).1.counts) org =
          countOrg env (joinRows pages) org := by
      intro pages
      rw [assocSum_eq_lookupCount _ _ (hsegNodup pages), hseg]
      by_cases hc : 0 < countOrg env (joinRows pages) org
      · rw [if_pos hc]
        simp
      · rw [if_neg hc]
        simp only [Option.getD_none]
        omega
    have hgetD : (lookupCount (mergeSummaries (segs.map (fun pages =>
        (processPages env (newScanHandler tbl os rT) 0 pages).1.counts))) org).getD 0 =
        countOrg env (joinRows (segs.map joinRows)) org := by
      rw [mergeSummaries, lookupCount_fold_accumulate_getD]
      have hmaps : (segs.map (fun pages =>
          (processPages env (newScanHandler tbl os rT) 0 pages).1.counts)).map
            (fun b => assocSum b org) =
          segs.map (fun pages => countOrg env (joinRows pages) org) := by
        rw [List.map_map]
        exact List.map_congr_left (fun pages _ => hassoc pages)
      rw [hmaps, countOrg_join_segs]
      simp [lookupCount]
    have hisSome : ((lookupCount (mergeSummaries (segs.map (fun pages =>
        (processPages env (newScanHandler tbl os rT) 0 pages).1.counts))) org).isSome = true) ↔
        0 < countOrg env (joinRows (segs.map joinRows)) org := by
      rw [mergeSummaries, lookupCount_fold_accumulate_isSome]
      have hleft : ¬((lookupCount ([] : List (Int × Nat)) org).isSome = true) := by
        simp [lookupCount]
      constructor
      · rintro (hh | ⟨b, hb, hk⟩)
        · exact absurd hh hleft
        · obtain ⟨pages, hp, hbeq⟩ := List.mem_map.mp hb
          rw [← hbeq, ← lookupCount_isSome_iff, hseg] at hk
          by_cases hc : 0 < countOrg env (joinRows pages) org
          · rw [← countOrg_join_segs]
            have hmem : countOrg env (joinRows pages) org ∈
                segs.map (fun pages => countOrg env (joinRows pages) org) :=
              List.mem_map.mpr ⟨pages, hp, rfl⟩
            have hle := List.single_le_sum (fun x _ => Nat.zero_le x) _ hmem
            omega
          · rw [if_neg hc] at hk
            simp at hk
      · intro htot
        rw [← countOrg_join_segs] at htot
        have hex : ∃ pages ∈ segs, 0 < countOrg env (joinRows pages) org := by
          by_contra hall
          push_neg at hall
          have : (segs.map (fun pages => countOrg env (joinRows pages) org)).sum = 0 := by
            apply List.sum_eq_zero
            intro x hx
            obtain ⟨pages, hp, hxeq⟩ := List.mem_map.mp hx
            have := hall pages hp
            omega
          omega
        obtain ⟨pages, hp, hc⟩ := hex
        refine Or.inr ⟨_, List.mem_map.mpr ⟨pages, hp, rfl⟩, ?_⟩
        rw [← lookupCount_isSome_iff, hseg, if_pos hc]
        rfl
    cases hh : lookupCount (mergeSummaries (segs.map (fun pages =>
        (processPages env (newScanHandler tbl os rT) 0 pages).1.counts))) org with
    | none =>
      rw [hh] at hisSome
      rw [if_neg (by rw [← hisSome]; simp)]
    | some v =>
      have hp : 0 < countOrg env (joinRows (segs.map joinRows)) org := by
        rw [← hisSome, hh]
        rfl
      rw [if_pos hp, ← hgetD, hh]
      rfl
  · intro org hneg
    have hnotSome : ¬((lookupCount (mergeSummaries (segs.map (fun pages =>
        (processPages env (newScanHandler tbl os rT) 0 pages).1.counts))) org).isSome = true) := by
      rw [mergeSummaries, lookupCount_fold_accumulate_isSome]
      rintro (hh | ⟨b, hb, hk⟩)
      · simp [lookupCount] at hh
      · obtain ⟨pages, hp, hbeq⟩ := List.mem_map.mp hb
        rw [← hbeq, ← lookupCount_isSome_iff, hcounts,
          foldRows_counts_nonpos env org hneg] at hk
        have : lookupCount (newScanHandler tbl os rT).counts org = none := rfl
        rw [this] at hk
        simp at hk
    cases hh : lookupCount (mergeSummaries (segs.map (fun pages =>
        (processPages env (newScanHandler tbl os rT) 0 pages).1.counts))) org with
    | none => rfl
    | some v =>
      rw [hh] at hnotSome
      simp at hnotSome

/-- Claim C9 witness: scenario S6 — tenants 3 (five rows), 8 (two rows) and
−1 (one row) over two pages in one segment: the counter advances by two, and
the merged summary holds exactly 3 ↦ 5 and 8 ↦ 2. -/
theorem scanner_summary_witness :
    (processPages scanEnvW (newScanHandler "tb" [] "") 0 pagesW).2 = 2 ∧
      lookupCount (mergeSummaries ([pagesW].map (fun pages =>
          (processPages scanEnvW (newScanHandler "tb" [] "") 0 pages).1.counts))) 3 = some 5 ∧
      lookupCount (mergeSummaries ([pagesW].map (fun pages =>
          (processPages scanEnvW (newScanHandler "tb" [] "") 0 pages).1.counts))) 8 = some 2 ∧
      lookupCount (mergeSummaries ([pagesW].map (fun pages =>
          (processPages scanEnvW (newScanHandler "tb" [] "") 0 pages).1.counts))) (-1) = none := by
  refine ⟨?_, ?_, ?_, ?_⟩
  · exact (scanner_summary scanEnvW "tb" "" [] [pagesW]).1 pagesW (by simp)
  · rw [(scanner_summary scanEnvW "tb" "" [] [pagesW]).2.2.1 3 (by decide)]
    decide
  · rw [(scanner_summary scanEnvW "tb" "" [] [pagesW]).2.2.1 8 (by decide)]
    decide
  · exact (scanner_summary scanEnvW "tb" "" [] [pagesW]).2.2.2 (-1) (by decide)

/-- A slice attempt either yields its replacement or is silently skipped. -/
theorem sliceFor_eq (c : Chunk) (f t : Int) : sliceFor c f t = .ok (sliceList c f t) := by
  rw [sliceFor, sliceList]
  cases h : Chunk.slice c f t with
  | ok nc => rfl
  | error e =>
    have he : e = .sliceNoDataInRange := by
      rw [Chunk.slice] at h
      by_cases hd : (c.data.filter (fun p => decide (f ≤ p.1) && decide (p.1 ≤ t))).isEmpty = true
      · rw [if_pos hd] at h
        exact (Except.error.injEq _ _).mp h.symm
      · rw [if_neg hd] at h
        exact absurd h (by simp)
    subst he
    rfl

/-- A replacement chunk carries the sliced interval and the original tenant
and labels. -/
theorem mem_sliceList (c : Chunk) (f t : Int) (nc : Chunk) (h : nc ∈ sliceList c f t) :
    nc.From = f ∧ nc.Through = t ∧ nc.userID = c.userID ∧ nc.metric = c.metric := by
  rw [sliceList] at h
  cases hs : Chunk.slice c f t with
  | error e => rw [hs] at h; simp at h
  | ok nc' =>
    rw [hs] at h
    rw [List.mem_singleton] at h
    subst h
    rw [Chunk.slice] at hs
    by_cases hd : (c.data.filter (fun p => decide (f ≤ p.1) && decide (p.1 ≤ t))).isEmpty = true
    · rw [if_pos hd] at hs
      exact absurd hs (by simp)
    · rw [if_neg hd] at hs
      have := (Except.ok.injEq _ _).mp hs
      rw [← this]
      exact ⟨rfl, rfl, rfl, rfl⟩

/-- Lookup after an upsert at the same key. -/
theorem lookup_upsertChunk_self (m : List (String × Chunk)) (k : String) (c : Chunk) :
    (upsertChunk m k c).lookup k = some c := by
  rw [upsertChunk]
  exact List.lookup_cons_self

/-- Filtering out a key removes it from lookups. -/
theorem lookup_filter_self (m : List (String × Chunk)) (k : String) :
    (m.filter (fun p => p.1 != k)).lookup k = none := by
  induction m with
  | nil => rfl
  | cons p rest ih =>
    obtain ⟨pk, pv⟩ := p
    by_cases h : (pk == k) = true
    · rw [List.filter_cons, if_neg (by simpa using h)]
      exact ih
    · rw [List.filter_cons, if_pos (by simpa using h)]
      rw [List.lookup_cons]
      have hkp : (k == pk) = false := by
        simp only [beq_eq_false_iff_ne]
        intro hh
        exact (by simpa using h : ¬(pk = k)) hh.symm
      rw [hkp]
      exact ih

/-- Filtering out a key preserves lookups of other keys. -/
theorem lookup_filter_other (m : List (String × Chunk)) (k k' : String) (hne : k' ≠ k) :
    (m.filter (fun p => p.1 != k)).lookup k' = m.lookup k' := by
  induction m with
  | nil => rfl
  | cons p rest ih =>
    obtain ⟨pk, pv⟩ := p
    by_cases h : (pk == k) = true
    · have hp : pk = k := by simpa using h
      rw [List.filter_cons, if_neg (by simpa using h)]
      rw [ih, List.lookup_cons]
      have hkp : (k' == pk) = false := by
        simp only [beq_eq_false_iff_ne]
        rw [hp]
        exact hne
      rw [hkp]
    · rw [List.filter_cons, if_pos (by simpa using h)]
      rw [List.lookup_cons, List.lookup_cons]
      cases hpk : k' == pk with
      | true => rfl
      | false => exact ih

/-- Lookup after an upsert at another key. -/
theorem lookup_upsertChunk_other (m : List (String × Chunk)) (k k' : String) (c : Chunk)
    (hne : k' ≠ k) : (upsertChunk m k c).lookup k' = m.lookup k' := by
  rw [upsertChunk, List.lookup_cons]
  have hkp : (k' == k) = false := by
    simp only [beq_eq_false_iff_ne]
    exact hne
  rw [hkp]
  exact lookup_filter_other m k k' hne

/-- A write path that always succeeds and upserts the payload makes every
put chunk retrievable and leaves other keys untouched. -/
theorem putNewChunks_spec (env : StoreEnv) (pc : StoreState → Chunk → StoreState × Option Err)
    (ncs : List Chunk)
    (hpc : ∀ s : StoreState, ∀ nc ∈ ncs, (pc s nc).2 = none ∧
      (pc s nc).1.chunkDB = upsertChunk s.chunkDB (env.extKey nc) nc) :
    ∀ st : StoreState,
      (putNewChunks pc st ncs).2 = none ∧
      (∀ key, (∀ nc ∈ ncs, env.extKey nc ≠ key) →
        ((putNewChunks pc st ncs).1).chunkDB.lookup key = st.chunkDB.lookup key) ∧
      (ncs.Pairwise (fun n1 n2 => env.extKey n1 ≠ env.extKey n2) →
        ∀ nc ∈ ncs, ((putNewChunks pc st ncs).1).chunkDB.lookup (env.extKey nc) = some nc) := by
  induction ncs with
  | nil =>
    intro st
    exact ⟨rfl, fun key _ => rfl, fun _ nc h => absurd h (by simp)⟩
  | cons n0 rest ih =>
    intro st
    have hn0 := hpc st n0 (List.mem_cons_self n0 rest)
    have hrest : ∀ s : StoreState, ∀ nc ∈ rest, (pc s nc).2 = none ∧
        (pc s nc).1.chunkDB = upsertChunk s.chunkDB (env.extKey nc) nc :=
      fun s nc hm => hpc s nc (List.mem_cons_of_mem n0 hm)
    have hstep : putNewChunks pc st (n0 :: rest) = putNewChunks pc (pc st n0).1 rest := by
      rw [putNewChunks]
      cases hp : pc st n0 with
      | mk s1 e1 =>
        have : e1 = none := by rw [← hn0.1, hp]
        subst this
        rfl
    have ihs := (ih hrest) (pc st n0).1
    refine ⟨by rw [hstep]; exact ihs.1, ?_, ?_⟩
    · intro key hkeys
      rw [hstep, ihs.2.1 key (fun nc hm => hkeys nc (List.mem_cons_of_mem n0 hm))]
      rw [hn0.2, lookup_upsertChunk_other _ _ _ _
        (fun hh => hkeys n0 (List.mem_cons_self n0 rest) hh.symm)]
    · intro hpair nc hm
      have hpair' := List.pairwise_cons.mp hpair
      rcases List.mem_cons.mp hm with hm | hm
      · subst hm
        rw [hstep]
        rw [ihs.2.1 (env.extKey nc) (fun nc' hm' hne => (hpair'.1 nc' hm') hne.symm)]
        rw [hn0.2, lookup_upsertChunk_self]
      · rw [hstep]
        exact ihs.2.2 hpair'.2 nc hm

/-- `PutOne` with healthy clients and a computable index batch succeeds and
upserts the payload. -/
theorem putOne_ok_parts (env : StoreEnv) (st : StoreState) (f' t' : Int) (nc : Chunk)
    (hput : env.putChunksErr = none) (hbw : env.batchWriteErr = none)
    (hcalc : ∃ bb, calculateIndexEntries env nc.userID f' t' nc = .ok bb) :
    (PutOne env st f' t' nc).2 = none ∧
      (PutOne env st f' t' nc).1.chunkDB = upsertChunk st.chunkDB (env.extKey nc) nc := by
  obtain ⟨bb, hb⟩ := hcalc
  cases hcw : env.cacheWriteErr <;> refine ⟨?_, ?_⟩ <;> simp [PutOne, hput, hbw, hb, hcw]

/-- Deleting a batch of index triples only removes rows. -/
theorem applyBatch_del_subset (es : List IndexEntry) :
    ∀ (rows : List IndexEntry) (row : IndexEntry),
      row ∈ applyBatch rows (es.map (fun e => .del e.tableName e.hashValue e.rangeValue)) →
        row ∈ rows := by
  induction es with
  | nil => intro rows row h; exact h
  | cons e0 rest ih =>
    intro rows row h
    rw [List.map_cons, applyBatch, List.foldl_cons] at h
    have := ih _ row h
    rw [applyOp] at this
    exact List.mem_of_mem_filter this

/-- After deleting a batch of index triples, no row carries any of them. -/
theorem applyBatch_del_removes (es : List IndexEntry) :
    ∀ (rows : List IndexEntry) (row : IndexEntry),
      row ∈ applyBatch rows (es.map (fun e => .del e.tableName e.hashValue e.rangeValue)) →
        ∀ e ∈ es, ¬(row.tableName = e.tableName ∧ row.hashValue = e.hashValue ∧
          row.rangeValue = e.rangeValue) := by
  induction es with
  | nil => intro rows row _ e he; simp at he
  | cons e0 rest ih =>
    intro rows row h e he
    rw [List.map_cons, applyBatch, List.foldl_cons] at h
    rcases List.mem_cons.mp he with he | he
    · subst he
      have hmem := applyBatch_del_subset rest _ row h
      rw [applyOp, List.mem_filter] at hmem
      intro htr
      have := hmem.2
      simp only [htr.1, htr.2.1, htr.2.2] at this
      simp at this
    · exact ih _ row h e he

/-- Claim C3: for a stored chunk and a strictly interior deletion interval
[a, b], `DeleteChunk` slices the chunk into up to two replacements covering
[From, a−1] and [b+1, Through] (an empty slice is skipped, not an error),
Puts each through the write path, then deletes the original index entries
and payload: afterwards every replacement is retrievable under its own key,
the original chunkID is gone, and no index row carries any of the original
entry triples; a non-overlapping interval fails with
`ErrPartialDeleteChunkNoOverlap`. -/
theorem deleteChunk_partial (env : StoreEnv) (st : StoreState) (f t : Int)
    (userID k : String) (metric : Labels) (a b : Int) (c c0 : Chunk)
    (hmetric : ¬(labelsGet metric metricNameLabel = ""))
    (hcmetric : ¬(labelsGet c.metric metricNameLabel = ""))
    (hparse : env.parseExternalKey userID k = .ok c0)
    (hfrom : c0.From = c.From) (hthrough : c0.Through = c.Through)
    (hfetch : fetchOne st k = .ok c)
    (hfa : c.From < a) (hab : a ≤ b) (hbt : b < c.Through)
    (hput : env.putChunksErr = none) (hbw : env.batchWriteErr = none)
    (hschema : ∀ f' t' u mn ls k', ∃ es, env.schemaWriteEntries f' t' u mn ls k' = .ok es)
    (hkeys : ∀ nc ∈ sliceList c c.From (a - 1) ++ sliceList c (b + 1) c.Through,
      env.extKey nc ≠ k)
    (hdist : (sliceList c c.From (a - 1) ++ sliceList c (b + 1) c.Through).Pairwise
      (fun n1 n2 => env.extKey n1 ≠ env.extKey n2)) :
    ((DeleteChunk env st f t userID k metric (some (a, b))).2 = none ∧
      (∀ nc ∈ sliceList c c.From (a - 1) ++ sliceList c (b + 1) c.Through,
        ((DeleteChunk env st f t userID k metric (some (a, b))).1).chunkDB.lookup
          (env.extKey nc) = some nc) ∧
      ((DeleteChunk env st f t userID k metric (some (a, b))).1).chunkDB.lookup k = none ∧
      (∀ nc ∈ sliceList c c.From (a - 1),
        nc.From = c.From ∧ nc.Through = a - 1 ∧ nc.userID = c.userID ∧ nc.metric = c.metric) ∧
      (∀ nc ∈ sliceList c (b + 1) c.Through,
        nc.From = b + 1 ∧ nc.Through = c.Through ∧ nc.userID = c.userID ∧ nc.metric = c.metric) ∧
      (∀ es, env.schemaWriteEntries f t userID (labelsGet metric metricNameLabel) metric k =
          .ok es →
        ∀ e ∈ es, ∀ row ∈ ((DeleteChunk env st f t userID k metric (some (a, b))).1).index,
          ¬(row.tableName = e.tableName ∧ row.hashValue = e.hashValue ∧
            row.rangeValue = e.rangeValue))) ∧
    (∀ a' b', intervalsOverlap (c0.From, c0.Through) (a', b') = false →
      DeleteChunk env st f t userID k metric (some (a', b')) =
        (st, some .partialDeleteNoOverlap)) := by
  have hpc : ∀ s : StoreState,
      ∀ nc ∈ sliceList c c.From (a - 1) ++ sliceList c (b + 1) c.Through,
      ((fun (s : StoreState) (c' : Chunk) => PutOne env s c'.From c'.Through c') s nc).2 = none ∧
      ((fun (s : StoreState) (c' : Chunk) => PutOne env s c'.From c'.Through c') s nc).1.chunkDB =
        upsertChunk s.chunkDB (env.extKey nc) nc := by
    intro s nc hm
    have hmet : nc.metric = c.metric := by
      rcases List.mem_append.mp hm with hm | hm
      · exact (mem_sliceList _ _ _ _ hm).2.2.2
      · exact (mem_sliceList _ _ _ _ hm).2.2.2
    refine putOne_ok_parts env s nc.From nc.Through nc hput hbw ?_
    rw [calculateIndexEntries, hmet, if_neg hcmetric]
    obtain ⟨es, hes⟩ := hschema nc.From nc.Through nc.userID
      (labelsGet c.metric metricNameLabel) c.metric (env.extKey nc)
    rw [hes]
    exact ⟨dedupEntries [] es, rfl⟩
  have hputs := putNewChunks_spec env
    (fun (s : StoreState) (c' : Chunk) => PutOne env s c'.From c'.Through c')
    (sliceList c c.From (a - 1) ++ sliceList c (b + 1) c.Through) hpc st
  rcases hpn : putNewChunks
      (fun (s : StoreState) (c' : Chunk) => PutOne env s c'.From c'.Through c') st
      (sliceList c c.From (a - 1) ++ sliceList c (b + 1) c.Through) with ⟨st1, e1⟩
  have he1 : e1 = none := by
    have h1 := hputs.1
    rw [hpn] at h1
    exact h1
  subst he1
  have hov : intervalsOverlap (c0.From, c0.Through) (a, b) = true := by
    have h1 : decide (c0.From > b) = false := decide_eq_false (by omega)
    have h2 : decide (a > c0.Through) = false := decide_eq_false (by omega)
    rw [intervalsOverlap]
    rw [show ((c0.From, c0.Through) : Int × Int).1 = c0.From from rfl]
    rw [show ((a, b) : Int × Int).2 = b from rfl]
    rw [show ((a, b) : Int × Int).1 = a from rfl]
    rw [show ((c0.From, c0.Through) : Int × Int).2 = c0.Through from rfl]
    rw [h1, h2]
    rfl
  have hfetchList : fetchChunks st [k] = .ok [c] := by
    rw [fetchChunks, exceptMap, hfetch]
    rfl
  have hL : (if a > c.From then sliceFor c c.From (a - 1) else .ok []) =
      .ok (sliceList c c.From (a - 1)) := by
    rw [if_pos (by omega), sliceFor_eq]
  have hR : (if b < c.Through then sliceFor c (b + 1) c.Through else .ok []) =
      .ok (sliceList c (b + 1) c.Through) := by
    rw [if_pos hbt, sliceFor_eq]
  have hreb : reboundChunk env st userID k a b
      (fun (s : StoreState) (c' : Chunk) => PutOne env s c'.From c'.Through c') = (st1, none) := by
    rw [reboundChunk, hparse]
    simp only [hov, Bool.not_true, Bool.false_eq_true, if_false, hfetchList, hL, hR]
    exact hpn
  obtain ⟨es0, hes0⟩ := hschema f t userID (labelsGet metric metricNameLabel) metric k
  have hrun : DeleteChunk env st f t userID k metric (some (a, b)) =
      ({ index := applyBatch st1.index
            (es0.map (fun e => .del e.tableName e.hashValue e.rangeValue)),
         chunkDB := st1.chunkDB.filter (fun p => p.1 != k),
         cache := st1.cache }, none) := by
    rw [DeleteChunk, if_neg hmetric, hes0]
    show deleteChunk env st userID k metric es0 (some (a, b))
      (fun s c => PutOne env s c.From c.Through c) = _
    rw [deleteChunk.eq_def, if_neg hmetric]
    simp only [hreb, hbw]
  refine ⟨⟨?_, ?_, ?_, ?_, ?_, ?_⟩, ?_⟩
  · rw [hrun]
  · intro nc hm
    rw [hrun]
    show (st1.chunkDB.filter (fun p => p.1 != k)).lookup (env.extKey nc) = some nc
    rw [lookup_filter_other _ _ _ (hkeys nc hm)]
    have h2 := hputs.2.2 hdist nc hm
    rw [hpn] at h2
    exact h2
  · rw [hrun]
    exact lookup_filter_self _ _
  · intro nc hm
    exact mem_sliceList _ _ _ _ hm
  · intro nc hm
    exact mem_sliceList _ _ _ _ hm
  · intro es hes e he row hrow
    rw [hrun] at hrow
    have heq : es = es0 := by
      have h3 := hes.symm.trans hes0
      exact (Except.ok.injEq _ _).mp h3
    subst heq
    exact applyBatch_del_removes es _ row hrow e he
  · intro a' b' hno
    have hrebno : reboundChunk env st userID k a' b'
        (fun (s : StoreState) (c' : Chunk) => PutOne env s c'.From c'.Through c') =
        (st, some .partialDeleteNoOverlap) := by
      rw [reboundChunk, hparse]
      simp only [hno, Bool.not_false, if_true]
    rw [DeleteChunk, if_neg hmetric, hes0]
    show deleteChunk env st userID k metric es0 (some (a', b'))
      (fun s c => PutOne env s c.From c.Through c) = _
    rw [deleteChunk.eq_def, if_neg hmetric]
    simp only [hrebno]

/-- Claim C3 witness: deleting [13, 15] from the stored chunk [10, 20]
succeeds, leaves both replacements retrievable, removes the original key,
and a disjoint interval fails with the no-overlap error. -/
theorem deleteChunk_partial_witness :
    (DeleteChunk envDel stDel 10 20 "u7" "u7:10:20" cDel.metric (some (13, 15))).2 = none ∧
      ((DeleteChunk envDel stDel 10 20 "u7" "u7:10:20" cDel.metric
        (some (13, 15))).1).chunkDB.lookup "u7:10:20" = none ∧
      DeleteChunk envDel stDel 10 20 "u7" "u7:10:20" cDel.metric (some (100, 200)) =
        (stDel, some .partialDeleteNoOverlap) := by
  have h := deleteChunk_partial envDel stDel 10 20 "u7" "u7:10:20" cDel.metric 13 15 cDel cDel0
    (by decide) (by decide) (by decide) (by decide) (by decide) (by decide)
    (by decide) (by decide) (by decide) rfl rfl
    (fun f' t' u mn ls k' => ⟨[], rfl⟩) (by decide) (by decide)
  exact ⟨h.1.1, h.1.2.2.1, h.2 100 200 (by decide)⟩

/-- Membership in the row loop of `parseIndexEntries`: exactly the chunk keys
of decodable rows whose label value the matcher (if any) accepts. -/
theorem mem_parseIndexEntriesAux (env : StoreEnv) (m? : Option Matcher) :
    ∀ (entries : List IndexEntry) (ids : List String),
      parseIndexEntriesAux env m? entries = .ok ids →
      ∀ x, (x ∈ ids ↔ ∃ e ∈ entries, ∃ lv,
        env.parseRangeValue e.rangeValue e.value = .ok (x, lv) ∧
        (∀ m, m? = some m → m.Matches lv = true)) := by
  intro entries
  induction entries with
  | nil =>
    intro ids h x
    rw [parseIndexEntriesAux] at h
    have : ids = [] := ((Except.ok.injEq _ _).mp h).symm
    subst this
    simp
  | cons e rest ih =>
    intro ids h x
    rw [parseIndexEntriesAux] at h
    cases hp : env.parseRangeValue e.rangeValue e.value with
    | error err => rw [hp] at h; exact absurd h (by simp)
    | ok p =>
      obtain ⟨ck, lv0⟩ := p
      rw [hp] at h
      cases hrest : parseIndexEntriesAux env m? rest with
      | error err => rw [hrest] at h; exact absurd h (by simp)
      | ok tail =>
        rw [hrest] at h
        have ihx := ih tail hrest
        cases hm : m? with
        | none =>
          rw [hm] at h
          have hids : ids = ck :: tail := ((Except.ok.injEq _ _).mp h).symm
          subst hids
          subst hm
          constructor
          · intro hx
            rcases List.mem_cons.mp hx with hx | hx
            · exact ⟨e, List.mem_cons_self e rest, lv0, hx ▸ hp, fun m hm' => by cases hm'⟩
            · obtain ⟨e', he', lv', hpv', hmv'⟩ := (ihx x).mp hx
              exact ⟨e', List.mem_cons_of_mem e he', lv', hpv', hmv'⟩
          · rintro ⟨e', he', lv', hpv', hmv'⟩
            rcases List.mem_cons.mp he' with he' | he'
            · subst he'
              rw [hp] at hpv'
              have : ck = x := ((Prod.mk.injEq _ _ _ _).mp ((Except.ok.injEq _ _).mp hpv')).1
              exact this ▸ List.mem_cons_self ck tail
            · exact List.mem_cons_of_mem ck ((ihx x).mpr ⟨e', he', lv', hpv', hmv'⟩)
        | some m =>
          rw [hm] at h
          subst hm
          have h2 : (if m.Matches lv0 = true then (Except.ok (ck :: tail) : Except Err (List String))
              else Except.ok tail) = Except.ok ids := h
          by_cases hmv : m.Matches lv0 = true
          · rw [if_pos hmv] at h2
            have hids : ids = ck :: tail := ((Except.ok.injEq _ _).mp h2).symm
            subst hids
            constructor
            · intro hx
              rcases List.mem_cons.mp hx with hx | hx
              · exact ⟨e, List.mem_cons_self e rest, lv0, hx ▸ hp,
                  fun m' hm' => by cases hm'; exact hmv⟩
              · obtain ⟨e', he', lv', hpv', hmv'⟩ := (ihx x).mp hx
                exact ⟨e', List.mem_cons_of_mem e he', lv', hpv', hmv'⟩
            · rintro ⟨e', he', lv', hpv', hmv'⟩
              rcases List.mem_cons.mp he' with he' | he'
              · subst he'
                rw [hp] at hpv'
                have hck : ck = x := ((Prod.mk.injEq _ _ _ _).mp ((Except.ok.injEq _ _).mp hpv')).1
                exact hck ▸ List.mem_cons_self ck tail
              · exact List.mem_cons_of_mem ck ((ihx x).mpr ⟨e', he', lv', hpv', hmv'⟩)
          · rw [if_neg hmv] at h2
            have hids : ids = tail := ((Except.ok.injEq _ _).mp h2).symm
            subst hids
            constructor
            · intro hx
              obtain ⟨e', he', lv', hpv', hmv'⟩ := (ihx x).mp hx
              exact ⟨e', List.mem_cons_of_mem e he', lv', hpv', hmv'⟩
            · rintro ⟨e', he', lv', hpv', hmv'⟩
              rcases List.mem_cons.mp he' with he' | he'
              · subst he'
                rw [hp] at hpv'
                have hinj := (Except.ok.injEq _ _).mp hpv'
                have hck : ck = x := ((Prod.mk.injEq _ _ _ _).mp hinj).1
                have hlv : lv0 = lv' := ((Prod.mk.injEq _ _ _ _).mp hinj).2
                exact absurd (hlv ▸ hmv' m rfl) hmv
              · exact (ihx x).mpr ⟨e', he', lv', hpv', hmv'⟩

/-- Membership in `parseIndexEntries` output: the same characterization,
stable under the sort and dedup. -/
theorem mem_parseIndexEntries (env : StoreEnv) (m? : Option Matcher)
    (entries : List IndexEntry) (ids : List String)
    (h : parseIndexEntries env entries m? = .ok ids) :
    ∀ x, (x ∈ ids ↔ ∃ e ∈ entries, ∃ lv,
      env.parseRangeValue e.rangeValue e.value = .ok (x, lv) ∧
      (∀ m, m? = some m → m.Matches lv = true)) := by
  intro x
  rw [parseIndexEntries] at h
  cases haux : parseIndexEntriesAux env m? entries with
  | error err => rw [haux] at h; exact absurd h (by simp)
  | ok l =>
    rw [haux] at h
    have hids : ids = uniqueStrings (sortStrings l) := ((Except.ok.injEq _ _).mp h).symm
    subst hids
    rw [mem_uniqueStrings, mem_sortStrings]
    exact mem_parseIndexEntriesAux env m? entries l haux x

/-- Membership in the looked-up rows: an index row under one of the queried
(table, hash) keys. -/
theorem mem_lookupEntriesByQueries (st : StoreState) :
    ∀ (queries : List IndexQuery) (e : IndexEntry),
      (e ∈ lookupEntriesByQueries st queries ↔
        ∃ q ∈ queries, e ∈ st.index ∧ e.tableName = q.tableName ∧ e.hashValue = q.hashValue) := by
  intro queries e
  induction queries with
  | nil => simp [lookupEntriesByQueries]
  | cons q qs ih =>
    rw [lookupEntriesByQueries, List.foldr_cons]
    rw [show (List.foldr _ [] qs : List IndexEntry) = lookupEntriesByQueries st qs from rfl]
    rw [List.mem_append]
    constructor
    · rintro (hmem | hmem)
      · obtain ⟨row, hrow, heq⟩ := List.mem_map.mp hmem
        rw [List.mem_filter] at hrow
        have hcond := hrow.2
        simp only [Bool.and_eq_true, beq_iff_eq] at hcond
        refine ⟨q, List.mem_cons_self q qs, ?_, ?_, ?_⟩
        · have : e = row := by
            rw [← heq]
            cases row with
            | mk rt rh rr rv =>
              simp only at hcond
              simp [hcond.1, hcond.2]
          rw [this]
          exact hrow.1
        · rw [← heq]
        · rw [← heq]
      · obtain ⟨q', hq', hrest⟩ := (ih).mp hmem
        exact ⟨q', List.mem_cons_of_mem q hq', hrest⟩
    · rintro ⟨q', hq', hmem, ht, hh⟩
      rcases List.mem_cons.mp hq' with hq' | hq'
      · subst hq'
        left
        refine List.mem_map.mpr ⟨e, ?_, ?_⟩
        · rw [List.mem_filter]
          exact ⟨hmem, by simp [ht, hh]⟩
        · cases e with
          | mk et eh er ev =>
            simp only at ht hh
            simp [ht, hh]
      · right
        exact (ih).mpr ⟨q', hq', hmem, ht, hh⟩

/-- A successful `exceptMap` over a cons decomposes. -/
theorem exceptMap_cons_ok {α β : Type} {g : α → Except Err β} {x : α} {xs : List α}
    {ys : List β} (h : exceptMap g (x :: xs) = .ok ys) :
    ∃ y ytail, ys = y :: ytail ∧ g x = .ok y ∧ exceptMap g xs = .ok ytail := by
  rw [exceptMap] at h
  cases hx : g x with
  | error e => rw [hx] at h; exact absurd h (by simp)
  | ok y =>
    rw [hx] at h
    cases hrest : exceptMap g xs with
    | error e => rw [hrest] at h; exact absurd h (by simp)
    | ok ytail =>
      rw [hrest] at h
      exact ⟨y, ytail, ((Except.ok.injEq _ _).mp h).symm, rfl, rfl⟩

/-- Claim C1: when a Get passes validation with at least one indexable
matcher, the candidate chunk-ID set it uses is the intersection of the
per-matcher candidate lists (each filtered by the matcher on the decoded
label value, sorted and deduplicated), membership in the intersection being
exactly joint membership; under the spec's external-key and index-integrity
invariants every chunk in Get's output satisfies every matcher (filters
applied to the fetched chunk's labels); and with zero indexable matchers the
single all-of-metric candidate set is used directly. -/
theorem getCandidates_intersection (env : StoreEnv) (st : StoreState) (userID : String)
    (f t : Int) (metricName : String) (ms : List Matcher) (f1 t1 : Int)
    (allMatchers : List Matcher) (out : List Chunk)
    (hval : validateQuery env userID f t allMatchers = .ok (some (metricName, ms, f1, t1)))
    (hims : (splitFiltersAndMatchers ms).2 ≠ [])
    (hok : Get env st userID f t allMatchers = .ok out)
    (hkey : ∀ ids, getCandidateIDs env st userID f1 t1 metricName
        (splitFiltersAndMatchers ms).2 = .ok ids → keyRoundtripOK env userID ids = true)
    (hlab : ∀ m ∈ (splitFiltersAndMatchers ms).2,
      matcherLabelOK env st userID f1 t1 metricName m = true) :
    (∃ idss, exceptMap (perMatcherChunkIDs env st userID f1 t1 metricName)
        (splitFiltersAndMatchers ms).2 = .ok idss ∧
      lookupChunksByMetricName env st userID f1 t1 (splitFiltersAndMatchers ms).2 metricName =
        convertChunkIDsToChunks env userID (intersectLists idss) ∧
      idss ≠ [] ∧
      (∀ x, x ∈ intersectLists idss ↔ ∀ l ∈ idss, x ∈ l)) ∧
    (∀ ch ∈ out, ∀ fm ∈ (splitFiltersAndMatchers ms).1,
      fm.Matches (labelsGet ch.metric fm.name) = true) ∧
    (∀ ch ∈ out, ∀ m ∈ (splitFiltersAndMatchers ms).2,
      m.Matches (labelsGet ch.metric m.name) = true) ∧
    (∀ (ms' : List Matcher) (metricName' : String) (f' t' : Int),
      (splitFiltersAndMatchers ms').2 = [] →
      lookupChunksByMetricName env st userID f' t' (splitFiltersAndMatchers ms').2 metricName' =
        (match env.schemaReadMetric f' t' userID metricName' with
         | .error e => .error e
         | .ok queries =>
           match parseIndexEntries env (lookupEntriesByQueries st queries) none with
           | .error e => .error e
           | .ok ids => convertChunkIDsToChunks env userID ids)) := by
  obtain ⟨m0, mrest, hsplit⟩ : ∃ m0 mrest, (splitFiltersAndMatchers ms).2 = m0 :: mrest := by
    cases hc : (splitFiltersAndMatchers ms).2 with
    | nil => exact absurd hc hims
    | cons m0 mrest => exact ⟨m0, mrest, rfl⟩
  have hok2 : getMetricNameChunks env st userID f1 t1 ms metricName = .ok out := by
    rw [Get, hval] at hok
    exact hok
  simp only [getMetricNameChunks] at hok2
  cases hl : lookupChunksByMetricName env st userID f1 t1 (splitFiltersAndMatchers ms).2
      metricName with
  | error e =>
    rw [hl] at hok2
    exact absurd hok2 (by simp)
  | ok chunks =>
  rw [hl] at hok2
  have hok3 : (if env.maxChunksPerQuery userID > 0 ∧
      (filterChunksByTime f1 t1 chunks).length > env.maxChunksPerQuery userID then
        (Except.error (Err.badRequest "query fetched too many chunks") : Except Err (List Chunk))
      else
        match fetchChunks st ((filterChunksByTime f1 t1 chunks).map env.extKey) with
        | .error e => .error e
        | .ok allChunks => .ok (filterChunksByMatchers allChunks
            (splitFiltersAndMatchers ms).1)) = .ok out := hok2
  by_cases hlim : env.maxChunksPerQuery userID > 0 ∧
      (filterChunksByTime f1 t1 chunks).length > env.maxChunksPerQuery userID
  · rw [if_pos hlim] at hok3
    exact absurd hok3 (by simp)
  · rw [if_neg hlim] at hok3
    cases hf : fetchChunks st ((filterChunksByTime f1 t1 chunks).map env.extKey) with
    | error e =>
      rw [hf] at hok3
      exact absurd hok3 (by simp)
    | ok allChunks =>
    rw [hf] at hok3
    have hout : out = filterChunksByMatchers allChunks (splitFiltersAndMatchers ms).1 :=
      ((Except.ok.injEq _ _).mp hok3).symm
    have hl' : lookupChunksByMetricName env st userID f1 t1 (m0 :: mrest) metricName =
        .ok chunks := by
      rw [← hsplit]
      exact hl
    have hl2 : (match exceptMap (perMatcherChunkIDs env st userID f1 t1 metricName)
        (m0 :: mrest) with
      | .error e => (Except.error e : Except Err (List Chunk))
      | .ok idss => convertChunkIDsToChunks env userID (intersectLists idss)) = .ok chunks := hl'
    cases hmapm : exceptMap (perMatcherChunkIDs env st userID f1 t1 metricName)
        (m0 :: mrest) with
    | error e =>
      rw [hmapm] at hl2
      exact absurd hl2 (by simp)
    | ok idss =>
    rw [hmapm] at hl2
    have hconv : convertChunkIDsToChunks env userID (intersectLists idss) = .ok chunks := hl2
    obtain ⟨l0, ltail, hidss, hpm0, hmaprest⟩ := exceptMap_cons_ok hmapm
    have hgc : getCandidateIDs env st userID f1 t1 metricName
        (splitFiltersAndMatchers ms).2 = .ok (intersectLists idss) := by
      rw [getCandidateIDs, hsplit, hmapm]
    have hkrt := hkey _ hgc
    refine ⟨⟨idss, by rw [hsplit]; exact hmapm, ?_, ?_, ?_⟩, ?_, ?_, ?_⟩
    · exact hconv.symm
    · rw [hidss]
      exact fun h => List.noConfusion h
    · intro x
      rw [hidss]
      exact mem_intersectLists
    · intro ch hch fm hfm
      rw [hout] at hch
      rw [filterChunksByMatchers, List.mem_filter] at hch
      have hall := hch.2
      rw [List.all_eq_true] at hall
      exact hall fm hfm
    · intro ch hch m hm
      rw [hout] at hch
      rw [filterChunksByMatchers, List.mem_filter] at hch
      obtain ⟨key, hkeymem, hfet⟩ := exceptMap_ok_mem_out hf ch hch.1
      obtain ⟨pc, hpcmem, hkeyeq⟩ := List.mem_map.mp hkeymem
      have hpcchunks : pc ∈ chunks := by
        rw [filterChunksByTime] at hpcmem
        exact List.mem_of_mem_filter hpcmem
      obtain ⟨id, hidmem, hidparse⟩ := exceptMap_ok_mem_out hconv pc hpcchunks
      have hkeyid : env.extKey pc = id := by
        rw [keyRoundtripOK, List.all_eq_true] at hkrt
        have := hkrt id hidmem
        rw [hidparse] at this
        simpa using this
      have hfetid : fetchOne st id = .ok ch := by
        rw [← hkeyid, hkeyeq]
        exact hfet
      obtain ⟨l, hlmem, hpml⟩ := exceptMap_ok_mem_src hmapm m (hsplit ▸ hm)
      have hidl : id ∈ l := by
        have := (@mem_intersectLists id l0 ltail).mp (hidss ▸ hidmem)
        exact this l (hidss ▸ hlmem)
      rw [perMatcherChunkIDs] at hpml
      cases hq : (if m.mtype ≠ MatchType.MatchEqual
          then env.schemaReadMetricLabel f1 t1 userID metricName m.name
          else env.schemaReadMetricLabelValue f1 t1 userID metricName m.name m.value) with
      | error e =>
        rw [hq] at hpml
        exact absurd hpml (by simp)
      | ok queries =>
      rw [hq] at hpml
      have hpml2 : parseIndexEntries env (lookupEntriesByQueries st queries) (some m) =
          .ok l := hpml
      obtain ⟨e, hemem, lv, hplv, hmlv⟩ :=
        (mem_parseIndexEntries env (some m) _ l hpml2 id).mp hidl
      have hmatch := hmlv m rfl
      have hlabm := hlab m (hsplit ▸ hm)
      rw [matcherLabelOK, hq] at hlabm
      have hlabm2 : ((lookupEntriesByQueries st queries).all (fun e =>
          match env.parseRangeValue e.rangeValue e.value with
          | .error _ => true
          | .ok p =>
            match fetchOne st p.1 with
            | .error _ => true
            | .ok chunk => labelsGet chunk.metric m.name == p.2)) = true := hlabm
      rw [List.all_eq_true] at hlabm2
      have hinner := hlabm2 e hemem
      rw [hplv] at hinner
      have hinner2 : (match fetchOne st id with
          | .error _ => true
          | .ok chunk => labelsGet chunk.metric m.name == lv) = true := hinner
      rw [hfetid] at hinner2
      have hlabel : labelsGet ch.metric m.name = lv := by simpa using hinner2
      rw [hlabel]
      exact hmatch
    · intro ms' metricName' f' t' hz
      rw [hz]
      rfl

/-- Claim C1 witness: a Get with the metric matcher and one equality matcher
succeeds on the concrete store, and the returned chunk satisfies the
matcher. -/
theorem getCandidates_intersection_witness :
    Get envQ stQ "u7" 0 10 [mName, mJob] = .ok [cq] ∧
      mJob.Matches (labelsGet cq.metric mJob.name) = true := by
  have h := getCandidates_intersection envQ stQ "u7" 0 10 "m" [mJob] 0 10
    [mName, mJob] [cq] rfl (fun hh => List.noConfusion hh) (by decide)
    (by
      intro ids hids
      have he : getCandidateIDs envQ stQ "u7" 0 10 "m"
          (splitFiltersAndMatchers [mJob]).2 = .ok ["K1"] := by decide
      rw [he] at hids
      have h2 : ["K1"] = ids := (Except.ok.injEq _ _).mp hids
      rw [← h2]
      decide)
    (by decide)
  exact ⟨by decide, h.2.2.1 cq (by decide) mJob (List.mem_singleton.mpr rfl)⟩

/-- A key found in the cache is what the fetcher returns. -/
theorem fetchOne_cache (st : StoreState) (k : String) (c : Chunk)
    (h : st.cache.lookup k = some c) : fetchOne st k = .ok c := by
  rw [fetchOne, h]

/-- A successful `PutOne` with cache writes enabled leaves the chunk in the
cache, so the fetcher finds it under its external key. -/
theorem fetchOne_after_putOne (env : StoreEnv) (st : StoreState) (f' t' : Int) (c : Chunk)
    (st' : StoreState) (hput : PutOne env st f' t' c = (st', none))
    (hcache : env.cacheWriteErr = none) :
    fetchOne st' (env.extKey c) = .ok c := by
  cases hpe : env.putChunksErr with
  | some e => rw [PutOne, hpe] at hput; simp at hput
  | none =>
    rw [PutOne, hpe, hcache] at hput
    cases hci : calculateIndexEntries env c.userID f' t' c with
    | error e =>
      rw [hci] at hput
      simp at hput
    | ok batch =>
      rw [hci] at hput
      cases hbw : env.batchWriteErr with
      | some e => rw [hbw] at hput; simp at hput
      | none =>
        rw [hbw] at hput
        have hst : ({ st with
            chunkDB := upsertChunk st.chunkDB (env.extKey c) c,
            cache := upsertChunk st.cache (env.extKey c) c,
            index := applyBatch st.index batch } : StoreState) = st' :=
          congrArg Prod.fst hput
        have hcacheEq : st'.cache = upsertChunk st.cache (env.extKey c) c := by
          rw [← hst]
        exact fetchOne_cache st' (env.extKey c) c
          (by rw [hcacheEq, lookup_upsertChunk_self])

/-- Claim C2 counterexample: a healthy, schema-coherent store where `PutOne`
of a named chunk succeeds, the query range [0, 600000] overlaps the chunk,
`from` is not after now, and the only matcher is the equality metric-name
matcher for the chunk's metric — yet `Get` returns the empty set: a
`through` more than five minutes past now is clamped to `now` before the
time filter, which then drops the chunk. -/
theorem readYourWrite_counterexample :
    (PutOne envC2 trivState cC2.From cC2.Through cC2).2 = none ∧
    (0 : Int) ≤ envC2.now ∧ cC2.From ≤ 600000 ∧ (0 : Int) ≤ cC2.Through ∧
    labelsGet cC2.metric metricNameLabel = mName.value ∧
    mName.name = metricNameLabel ∧ mName.mtype = .MatchEqual ∧
    Get envC2 (PutOne envC2 trivState cC2.From cC2.Through cC2).1 cC2.userID 0 600000 [mName]
        = .ok [] ∧
    cC2 ∉ ([] : List Chunk) := by
  decide

/-- Claim C2 (amended): read-your-write under explicit coherence — after a
successful `PutOne` of chunk c with cache writes enabled, a `Get` whose
validation leaves the range unchanged, whose range overlaps c's interval,
whose remaining matchers all accept c's labels, whose index candidate sets
contain c's external key (per indexable matcher, or in the all-of-metric set
when no indexable matcher remains), and whose external key parses back to a
chunk with c's interval and key, includes c in its output whenever it
succeeds. -/
theorem readYourWrite_amended (env : StoreEnv) (st st' : StoreState) (userID : String)
    (f t : Int) (c pc : Chunk) (metricName : String)
    (allMatchers ms : List Matcher) (out : List Chunk)
    (hput : PutOne env st c.From c.Through c = (st', none))
    (hcache : env.cacheWriteErr = none)
    (hval : validateQuery env userID f t allMatchers = .ok (some (metricName, ms, f, t)))
    (hidx : ∀ m ∈ (splitFiltersAndMatchers ms).2, ∃ ids,
      perMatcherChunkIDs env st' userID f t metricName m = .ok ids ∧ env.extKey c ∈ ids)
    (hidx0 : (splitFiltersAndMatchers ms).2 = [] → ∃ queries ids,
      env.schemaReadMetric f t userID metricName = .ok queries ∧
      parseIndexEntries env (lookupEntriesByQueries st' queries) none = .ok ids ∧
      env.extKey c ∈ ids)
    (hpc : env.parseExternalKey userID (env.extKey c) = .ok pc)
    (hpcF : pc.From = c.From) (hpcT : pc.Through = c.Through)
    (hpck : env.extKey pc = env.extKey c)
    (hov1 : f ≤ c.Through) (hov2 : c.From ≤ t)
    (hms : ∀ m ∈ ms, m.Matches (labelsGet c.metric m.name) = true)
    (hok : Get env st' userID f t allMatchers = .ok out) :
    c ∈ out := by
  have hok2 : getMetricNameChunks env st' userID f t ms metricName = .ok out := by
    rw [Get, hval] at hok
    exact hok
  simp only [getMetricNameChunks] at hok2
  cases hl : lookupChunksByMetricName env st' userID f t (splitFiltersAndMatchers ms).2
      metricName with
  | error e =>
    rw [hl] at hok2
    exact absurd hok2 (by simp)
  | ok chunks =>
  rw [hl] at hok2
  have hok3 : (if env.maxChunksPerQuery userID > 0 ∧
      (filterChunksByTime f t chunks).length > env.maxChunksPerQuery userID then
        (Except.error (Err.badRequest "query fetched too many chunks") : Except Err (List Chunk))
      else
        match fetchChunks st' ((filterChunksByTime f t chunks).map env.extKey) with
        | .error e => .error e
        | .ok allChunks => .ok (filterChunksByMatchers allChunks
            (splitFiltersAndMatchers ms).1)) = .ok out := hok2
  obtain ⟨candIds, hconv, hkc⟩ : ∃ ids,
      convertChunkIDsToChunks env userID ids = .ok chunks ∧ env.extKey c ∈ ids := by
    cases hsplit : (splitFiltersAndMatchers ms).2 with
    | nil =>
      rw [hsplit] at hl
      obtain ⟨queries, ids, hq, hp, hkc0⟩ := hidx0 hsplit
      have hl2 : (match env.schemaReadMetric f t userID metricName with
        | .error e => (Except.error e : Except Err (List Chunk))
        | .ok queries =>
          match parseIndexEntries env (lookupEntriesByQueries st' queries) none with
          | .error e => .error e
          | .ok ids => convertChunkIDsToChunks env userID ids) = .ok chunks := hl
      rw [hq] at hl2
      have hl3 : (match parseIndexEntries env (lookupEntriesByQueries st' queries) none with
        | .error e => (Except.error e : Except Err (List Chunk))
        | .ok ids => convertChunkIDsToChunks env userID ids) = .ok chunks := hl2
      rw [hp] at hl3
      have hl4 : convertChunkIDsToChunks env userID ids = .ok chunks := hl3
      exact ⟨ids, hl4, hkc0⟩
    | cons m0 mrest =>
      rw [hsplit] at hl
      have hl2 : (match exceptMap (perMatcherChunkIDs env st' userID f t metricName)
          (m0 :: mrest) with
        | .error e => (Except.error e : Except Err (List Chunk))
        | .ok idss => convertChunkIDsToChunks env userID (intersectLists idss)) =
          .ok chunks := hl
      cases hmapm : exceptMap (perMatcherChunkIDs env st' userID f t metricName)
          (m0 :: mrest) with
      | error e =>
        rw [hmapm] at hl2
        exact absurd hl2 (by simp)
      | ok idss =>
      rw [hmapm] at hl2
      have hconv0 : convertChunkIDsToChunks env userID (intersectLists idss) =
          .ok chunks := hl2
      obtain ⟨l0, ltail, hidss, -, -⟩ := exceptMap_cons_ok hmapm
      have hall : ∀ l ∈ idss, env.extKey c ∈ l := by
        intro l hlmem
        obtain ⟨m, hmmem, hgm⟩ := exceptMap_ok_mem_out hmapm l hlmem
        obtain ⟨ids2, hids2, hkc2⟩ := hidx m (by rw [hsplit]; exact hmmem)
        rw [hgm] at hids2
        have hle : l = ids2 := (Except.ok.injEq _ _).mp hids2
        rw [hle]
        exact hkc2
      refine ⟨intersectLists idss, hconv0, ?_⟩
      rw [hidss]
      exact (mem_intersectLists).mpr (fun l' hl' => hall l' (by rw [hidss]; exact hl'))
  by_cases hlim : env.maxChunksPerQuery userID > 0 ∧
      (filterChunksByTime f t chunks).length > env.maxChunksPerQuery userID
  · rw [if_pos hlim] at hok3
    exact absurd hok3 (by simp)
  · rw [if_neg hlim] at hok3
    cases hf : fetchChunks st' ((filterChunksByTime f t chunks).map env.extKey) with
    | error e =>
      rw [hf] at hok3
      exact absurd hok3 (by simp)
    | ok allChunks =>
    rw [hf] at hok3
    have hout : out = filterChunksByMatchers allChunks (splitFiltersAndMatchers ms).1 :=
      ((Except.ok.injEq _ _).mp hok3).symm
    have hconv2 : exceptMap (env.parseExternalKey userID) candIds = .ok chunks := hconv
    obtain ⟨d, hdmem, hdparse⟩ := exceptMap_ok_mem_src hconv2 (env.extKey c) hkc
    rw [hpc] at hdparse
    have hdpc : pc = d := (Except.ok.injEq _ _).mp hdparse
    have hpcchunks : pc ∈ chunks := by
      rw [hdpc]
      exact hdmem
    have hptime : pc ∈ filterChunksByTime f t chunks := by
      rw [filterChunksByTime, List.mem_filter]
      refine ⟨hpcchunks, ?_⟩
      show (!(decide (pc.Through < f) || decide (t < pc.From))) = true
      rw [hpcF, hpcT]
      have hd1 : decide (c.Through < f) = false := decide_eq_false (not_lt.mpr hov1)
      have hd2 : decide (t < c.From) = false := decide_eq_false (not_lt.mpr hov2)
      rw [hd1, hd2]
      rfl
    have hkeymap : env.extKey pc ∈ (filterChunksByTime f t chunks).map env.extKey :=
      List.mem_map_of_mem env.extKey hptime
    have hf2 : exceptMap (fetchOne st') ((filterChunksByTime f t chunks).map env.extKey) =
        .ok allChunks := hf
    obtain ⟨y, hymem, hyfet⟩ := exceptMap_ok_mem_src hf2 (env.extKey pc) hkeymap
    rw [hpck] at hyfet
    rw [fetchOne_after_putOne env st c.From c.Through c st' hput hcache] at hyfet
    have hcy : c = y := (Except.ok.injEq _ _).mp hyfet
    rw [hout, filterChunksByMatchers, List.mem_filter]
    refine ⟨by rw [hcy]; exact hymem, ?_⟩
    show (splitFiltersAndMatchers ms).1.all
        (fun m => m.Matches (labelsGet c.metric m.name)) = true
    rw [List.all_eq_true]
    intro m hm
    exact hms m (List.mem_of_mem_filter hm)

/-- Claim C2 witness: on a concrete coherent store, writing the chunk and
reading it back with its metric-name and label matchers returns it. -/
theorem readYourWrite_amended_witness :
    PutOne envW2 trivState cq.From cq.Through cq = (stW2, none) ∧
      Get envW2 stW2 "u7" 0 10 [mName, mJob] = .ok [cq] ∧ cq ∈ [cq] := by
  refine ⟨by decide, by decide, ?_⟩
  exact readYourWrite_amended envW2 trivState stW2 "u7" 0 10 cq pcq "m"
    [mName, mJob] [mJob] [cq]
    (by decide) rfl rfl
    (by
      intro m hm
      have hm2 : m ∈ [mJob] := hm
      rw [List.mem_singleton] at hm2
      subst hm2
      exact ⟨["K1"], by decide, by decide⟩)
    (fun hh => List.noConfusion hh)
    (by decide) (by decide) (by decide) (by decide) (by decide) (by decide)
    (by
      intro m hm
      have hm2 : m ∈ [mJob] := hm
      rw [List.mem_singleton] at hm2
      subst hm2
      decide)
    (by decide)
